import Mathlib

/-!
# FastNginx: record codec, index store, hosts synchroniser, lifecycle operations

A shallow embedding of `src/main.go` and the properties of its specification.

Modelling conventions.

* A Go `string` is a `List Char` (`Str`): the sequence of its Unicode code points.
  Every separator the program splits on (`,`, `=`, newline, tab, `/`) is ASCII, so
  splitting code points and splitting bytes agree on well-formed UTF-8 text.
* A Go `map[string]string` is an association list with at most one entry per key
  (`GoMap`).  Go leaves the order of `for k, v := range m` unspecified: every function
  that ranges over a map takes the order as a parameter `ord`, and the theorems hold
  for every `ord` that returns a permutation of the entries.
* Functions of the Go standard library (`strings`, `strconv`, `path/filepath`) are
  modelled after their documented behaviour on Unix with a 64-bit `int`, under their
  Go names.
* The file system maps the name of a directory entry to a regular file, a symbolic
  link or a directory.  A system call walks its path from the root or from the working
  directory and follows symbolic links as the call does on Unix; what the call does
  beyond that (permissions), and the outcome of the external validate and reload
  commands, is a parameter (`Env`).  A regular file has one name (no hard links).
  Terminal output (status lines, progress bars, menus) is not modelled.
* A run-time panic (an index out of range) is the result `none`.
-/

namespace FastNginx

/-! ## Strings -/

/-- A Go string, as the list of its code points. -/
abbrev Str := List Char

/-- Go `unicode.IsSpace`: the code points with the Unicode White_Space property, that
is `\t \n \v \f \r`, space, U+0085, U+00A0, U+1680, U+2000 to U+200A, U+2028, U+2029,
U+202F, U+205F and U+3000. -/
def isSpace (c : Char) : Bool :=
  c == '\t' || c == '\n' || c == '\x0b' || c == '\x0c' || c == '\r' || c == ' ' ||
  c.toNat == 0x85 || c.toNat == 0xA0 || c.toNat == 0x1680 ||
  (0x2000 ≤ c.toNat && c.toNat ≤ 0x200A) ||
  c.toNat == 0x2028 || c.toNat == 0x2029 || c.toNat == 0x202F || c.toNat == 0x205F ||
  c.toNat == 0x3000

/-- Go `strings.TrimSpace`: drop the leading and the trailing white space. -/
def TrimSpace (s : Str) : Str := (s.dropWhile isSpace).rdropWhile isSpace

/-- Go `strings.Split(s, sep)` for a one-character separator. -/
def Split (s : Str) (sep : Char) : List Str := s.splitOn sep

/-- Go `strings.SplitN(s, sep, 2)` for a one-character separator: cut at the first
separator when there is one. -/
def SplitN2 (s : Str) (sep : Char) : List Str :=
  match s.span (fun c => c != sep) with
  | (a, []) => [a]
  | (a, _ :: b) => [a, b]

/-- Go `strings.Join(elems, sep)`. -/
def Join (elems : List Str) (sep : Str) : Str := sep.intercalate elems

/-- Go `strings.Contains(s, substr)`. -/
def Contains (s substr : Str) : Bool := s.tails.any (fun t => substr.isPrefixOf t)

/-- Go `strings.Fields`: the maximal runs of characters that are not white space. -/
def Fields (s : Str) : List Str := (s.splitOnP isSpace).filter (fun f => !f.isEmpty)

/-- Simple case folding towards the ASCII small letters: an ASCII capital folds to its
small letter, U+017F to `s` and U+212A to `k`; no other code point folds to an ASCII
letter. -/
def foldChar (c : Char) : Char :=
  if 65 ≤ c.toNat ∧ c.toNat ≤ 90 then Char.ofNat (c.toNat + 32)
  else if c.toNat = 0x17F then 's'
  else if c.toNat = 0x212A then 'k'
  else c

/-- Go `strings.EqualFold(s, t)` for a word `t` of ASCII small letters (the program
compares with `proxy` and `y`). -/
def EqualFold (s t : Str) : Bool := s.map foldChar == t

/-! ## Maps -/

/-- A Go `map[string]string`: an association list, one entry per key. -/
abbrev GoMap := List (Str × Str)

/-- The entry of a key, when the map has one. -/
def mapLookup (m : GoMap) (k : Str) : Option Str := List.lookup k m

/-- Go `m[k]`: the value of the key, or the empty string when the key is absent. -/
def mapGet (m : GoMap) (k : Str) : Str := (mapLookup m k).getD []

/-- Go `m[k] = v`: replace the value of an existing key, or add the entry. -/
def mapSet : GoMap → Str → Str → GoMap
  | [], k, v => [(k, v)]
  | (k', v') :: m, k, v => if k' = k then (k', v) :: m else (k', v') :: mapSet m k v

/-- The keys of a map, in entry order. -/
def mapKeys (m : GoMap) : List Str := m.map Prod.fst

/-- Two maps are equal as maps when every key has the same entry in both. -/
def MapEq (m₁ m₂ : GoMap) : Prop := ∀ k, mapLookup m₁ k = mapLookup m₂ k

/-! ## Record codec (`parseConfigLine`, and the serialisation loop of edit and toggle) -/

/-- `parseConfigLine` (main.go 404-415). -/
def parseConfigLine (line : Str) : GoMap :=
  (Split line ',').foldl
    (fun result part =>
      match SplitN2 part '=' with
      | [k, v] => mapSet result (TrimSpace k) (TrimSpace v)
      | _ => result)
    []

/-- One `k+"="+v` part of a serialised record. -/
def kvPart (e : Str × Str) : Str := e.1 ++ '=' :: e.2

/-- The serialisation loop of `editConfiguration` (main.go 521-525) and
`toggleConfiguration` (main.go 668-672):
`for k, v := range config { parts = append(parts, k+"="+v) }; strings.Join(parts, ",")`,
with `ord` the order in which `range` visits the entries. -/
def serializeConfig (ord : GoMap → GoMap) (config : GoMap) : Str :=
  Join ((ord config).map kvPart) [',']


/-- Keys and values that `parseConfigLine` and the serialisation loop carry unchanged:
a key has no leading or trailing white space and no `,` or `=`. -/
def CleanKey (k : Str) : Prop := TrimSpace k = k ∧ ',' ∉ k ∧ '=' ∉ k

/-- A value has no leading or trailing white space and no `,`. -/
def CleanVal (v : Str) : Prop := TrimSpace v = v ∧ ',' ∉ v

/-- A record the codec carries unchanged: distinct keys, clean keys and values. -/
def CleanMap (m : GoMap) : Prop :=
  (mapKeys m).Nodup ∧ ∀ e ∈ m, CleanKey e.1 ∧ CleanVal e.2

/-- A string that neither starts nor ends with white space. -/
def Trimmed (s : Str) : Prop :=
  (∀ c, s.head? = some c → isSpace c = false) ∧ (∀ c, s.getLast? = some c → isSpace c = false)

/-! ## Numbers (`strconv.Atoi`, `%d`) -/

/-- An ASCII decimal digit. -/
def isDigit (c : Char) : Bool := 48 ≤ c.toNat && c.toNat ≤ 57

/-- The value of a string of decimal digits. -/
def digitsVal (s : Str) : Nat := s.foldl (fun n c => 10 * n + (c.toNat - 48)) 0

/-- Go `strconv.Atoi` with a 64-bit `int`: an optional sign, then one or more decimal
digits whose value fits the type; `none` is the error result. -/
def Atoi (s : Str) : Option Int :=
  let neg : Bool := match s with
    | '-' :: _ => true
    | _ => false
  let ds : Str := match s with
    | '-' :: t => t
    | '+' :: t => t
    | _ => s
  if ds.isEmpty || !ds.all isDigit then none
  else if neg then
    (if digitsVal ds ≤ 2 ^ 63 then some (-(digitsVal ds : Int)) else none)
  else
    (if digitsVal ds < 2 ^ 63 then some (digitsVal ds : Int) else none)

/-- The verb `%d` of `fmt.Sprintf` on an integer. -/
def fmtInt : Int → Str
  | Int.ofNat n => Nat.toDigits 10 n
  | Int.negSucc n => '-' :: Nat.toDigits 10 (n + 1)

/-! ## Paths (`path/filepath` on Unix) -/

/-- One path element of `filepath.Clean`.  `out` holds the elements kept so far, the
latest first.  An empty element and `.` are skipped; `..` removes the latest real
element, is dropped at the root, and is kept at the start of a relative path. -/
def cleanStep (rooted : Bool) (out : List Str) (el : Str) : List Str :=
  if el = [] ∨ el = ['.'] then out
  else if el = ['.', '.'] then
    match out with
    | [] => if rooted then [] else [el]
    | top :: rest => if top = ['.', '.'] then el :: out else rest
  else el :: out

/-- Go `filepath.Clean`. -/
def filepathClean (path : Str) : Str :=
  if path = [] then ['.']
  else
    let rooted : Bool := path.head? == some '/'
    let body := Join ((Split path '/').foldl (cleanStep rooted) []).reverse ['/']
    if rooted then '/' :: body
    else if body = [] then ['.']
    else body

/-- Go `filepath.Join`: the elements from the first non-empty one on, joined with `/`
and cleaned; the empty string when every element is empty. -/
def filepathJoin (elems : List Str) : Str :=
  match elems.dropWhile (fun e => e.isEmpty) with
  | [] => []
  | rest => filepathClean (Join rest ['/'])

/-- Go `filepath.Dir`: the cleaned text up to and including the last `/`. -/
def filepathDir (path : Str) : Str := filepathClean (path.rdropWhile (fun c => c != '/'))

/-- Go `filepath.Base`: the last element of the path, after removing trailing slashes. -/
def filepathBase (path : Str) : Str :=
  if path = [] then ['.']
  else
    let b := (path.rdropWhile (fun c => c == '/')).rtakeWhile (fun c => c != '/')
    if b = [] then ['/'] else b

/-! ## Template renderer -/

/-- The template of `generateNginxConfig` up to the first `%s`. -/
def templateIntro : Str := "# FastNginx Generated Configuration\n# Domain: ".toList

/-- The template between the fourth and the fifth `%s`. -/
def templateServer : Str := "\n\nserver \x7b\n    listen 80;\n    server_name ".toList

/-- The template between the fifth and the sixth `%s`. -/
def templateProxy : Str :=
  (";\n\n    # Security headers\n" ++
   "    add_header X-Frame-Options \"SAMEORIGIN\" always;\n" ++
   "    add_header X-Content-Type-Options \"nosniff\" always;\n" ++
   "    add_header X-XSS-Protection \"1; mode=block\" always;\n\n" ++
   "    # Proxy configuration\n    location / \x7b\n        proxy_pass http://").toList

/-- The template after the last `%s`. -/
def templateTail : Str :=
  (";\n        proxy_http_version 1.1;\n\n" ++
   "        # WebSocket support\n" ++
   "        proxy_set_header Upgrade $http_upgrade;\n" ++
   "        proxy_set_header Connection \x27upgrade\x27;\n" ++
   "        proxy_cache_bypass $http_upgrade;\n\n" ++
   "        # Standard proxy headers\n" ++
   "        proxy_set_header Host $host;\n" ++
   "        proxy_set_header X-Real-IP $remote_addr;\n" ++
   "        proxy_set_header X-Forwarded-For $proxy_add_x_forwarded_for;\n" ++
   "        proxy_set_header X-Forwarded-Proto $scheme;\n\n" ++
   "        # Timeouts\n" ++
   "        proxy_connect_timeout 60s;\n" ++
   "        proxy_send_timeout 60s;\n" ++
   "        proxy_read_timeout 60s;\n    \x7d\n\n" ++
   "    # Health check endpoint\n    location /nginx-health \x7b\n" ++
   "        access_log off;\n" ++
   "        return 200 \"healthy\\n\";\n" ++
   "        add_header Content-Type text/plain;\n    \x7d\n\x7d\n").toList

/-- `generateNginxConfig` (main.go 268-312): the template with its seven `%s` filled
in; `ts` is `time.Now().String()`. -/
def generateNginxConfig (ts domain port backendHost : Str) : Str :=
  templateIntro ++ (domain ++ (" | Port: ".toList ++ (port ++ (" | Host: ".toList ++
    (backendHost ++ (" | Generated: ".toList ++ (ts ++ (templateServer ++ (domain ++
    (templateProxy ++ (backendHost ++ (':' :: (port ++ templateTail)))))))))))))

/-- A non-empty string that neither starts nor ends with white space. -/
def Solid (s : Str) : Prop := s ≠ [] ∧ Trimmed s

/-- A plain file name: not empty, without `/`, and neither `.` nor `..`. -/
def PlainName (n : Str) : Prop := n ≠ [] ∧ '/' ∉ n ∧ n ≠ ['.'] ∧ n ≠ ['.', '.']


/-! ## Index store -/

/-- The name of the file that holds the base path (`CONFIG_FILE`). -/
def CONFIG_FILE : Str := ".fastnginx_config".toList

/-- The lines of the index as `manageConfigurations` loads them (main.go 334-349):
trim the content, split on newline, report an empty database when nothing is left,
and keep the lines that are not blank. -/
def loadConfigurations (indexContent : Str) : List Str :=
  let configurations := Split (TrimSpace indexContent) '\n'
  if configurations.length = 0 ∨ (configurations.length = 1 ∧ configurations.head? = some [])
  then []
  else configurations.filter (fun c => !(TrimSpace c).isEmpty)

/-- The records of the index: each loaded line decoded with `parseConfigLine`. -/
def loadRecords (indexContent : Str) : List GoMap :=
  (loadConfigurations indexContent).map parseConfigLine

/-- The content a full rewrite of the index stores: `strings.Join(*configs, "\n")`
(main.go 528, 639, 674). -/
def indexContent (configs : List Str) : Str := Join configs ['\n']

/-- The index content written for a sequence of records, each serialised as edit and
toggle do. -/
def saveRecords (ord : GoMap → GoMap) (records : List GoMap) : Str :=
  indexContent (records.map (serializeConfig ord))

/-- The entry line create appends to the index (main.go 244-246). -/
def configEntry (domainInput port backendHost ipAddress siteAvailable : Str)
    (createdMilli : Int) : Str :=
  "domain=".toList ++ domainInput ++ ",port=".toList ++ port ++ ",host=".toList ++
  backendHost ++ ",type=proxy,ip=".toList ++ ipAddress ++ ",path=".toList ++ siteAvailable ++
  ",status=active,created=".toList ++ fmtInt createdMilli ++ ['\n']

/-! ## Hosts-file synchroniser -/

/-- The ownership marker of a managed hosts line. -/
def hostsMarker : Str := "# Added by FastNginx".toList

/-- A managed hosts line: `fmt.Sprintf("%s\t%s\t# Added by FastNginx", ip, domain)`. -/
def managedLine (ip domain : Str) : Str := ip ++ '\t' :: domain ++ '\t' :: hostsMarker

/-- The text the hosts step of create appends to `/etc/hosts` (main.go 235):
`fmt.Sprintf("\n%s\t%s\t# Added by FastNginx\n", ipAddress, domainInput)`. -/
def createHostsText (ipAddress domainInput : Str) : Str :=
  '\n' :: managedLine ipAddress domainInput ++ ['\n']

/-- The hosts content after the hosts step of create. -/
def createHostsAppend (content ipAddress domainInput : Str) : Str :=
  content ++ createHostsText ipAddress domainInput

/-- The test of the update loop (main.go 568-571) on one line. -/
def hostsLineMatches (oldDomain line : Str) : Bool :=
  Contains (TrimSpace line) oldDomain &&
    (Contains (TrimSpace line) hostsMarker || Contains (TrimSpace line) oldDomain)

/-- The update loop of `updateHostsFile` (main.go 567-577): the first matching line is
replaced and the loop stops; `none` when no line matches (`foundAndUpdated` false). -/
def replaceFirstMatch (oldDomain newLine : Str) : List Str → Option (List Str)
  | [] => none
  | line :: rest =>
    if hostsLineMatches oldDomain line then some (newLine :: rest)
    else (replaceFirstMatch oldDomain newLine rest).map (fun r => line :: r)

/-- The lines `updateHostsFile` writes back (main.go 564-594). -/
def updateHostsLines (oldDomain newDomain newIp : Str) (lines : List Str) : List Str :=
  match replaceFirstMatch oldDomain (managedLine newIp newDomain) lines with
  | some updated => updated
  | none =>
    if lines.any (fun line => Contains line newDomain) then lines
    else lines ++ [managedLine newIp newDomain]

/-- The text delete looks for in a hosts line: `\t<domain>\t# Added by FastNginx`. -/
def deletePattern (domain : Str) : Str := '\t' :: domain ++ '\t' :: hostsMarker

/-- The hosts lines delete keeps (main.go 627-633). -/
def deleteHostsLines (domain : Str) (lines : List Str) : List Str :=
  lines.filter (fun line => !Contains line (deletePattern domain))

/-- The hosts content delete writes back (main.go 627-634). -/
def deleteHostsContent (domain content : Str) : Str :=
  Join (deleteHostsLines domain (Split content '\n')) ['\n']

/-- The hosts content `updateHostsFile` writes back (main.go 564-599). -/
def updateHostsContent (oldDomain newDomain newIp content : Str) : Str :=
  Join (updateHostsLines oldDomain newDomain newIp (Split content '\n')) ['\n']

/-- A managed entry for a domain: `<ip>\t<domain>\t# Added by FastNginx` for some ip. -/
def isManagedEntry (domain line : Str) : Bool :=
  (deletePattern domain).isSuffixOf line


/-! ## Files and external capabilities

The file system maps the name of a directory entry to what the entry holds: a regular
file with its content, a symbolic link with its target, or a directory.  The name of an
entry is the absolute path that reaches it through directories only (`entryName`).  A
path given to a system call is walked component by component, from the root or from the
working directory: `.` stays, `..` goes to the parent, a symbolic link met on the way
is followed, at most `maxLinks` links in all (`resolve`).  `os.ReadFile`,
`os.WriteFile`, `os.OpenFile` and `os.Stat` follow a link at the last component too;
`os.Symlink`, `os.Remove` and `os.Rename` act on the entry the last component names.  A
regular file has one name (no hard links).  Whether a system call succeeds beyond what
the map decides (permissions, a directory that is not empty) is given by the
environment `Env`; a call that fails leaves the map unchanged. -/

/-- What a directory entry holds. -/
inductive Node where
  | file (content : Str)
  | link (target : Str)
  | dir
  deriving DecidableEq

/-- The file system. -/
abbrev FS := Str → Option Node

/-- The outcomes the program does not decide: the clock, the working directory (an
absolute path through directories only), the system calls, and the external validate
(`sudo nginx -t`) and reload (`sudo systemctl reload nginx`) capabilities. -/
structure Env where
  ts : Str
  nowMilli : Int
  cwd : Str
  readOk : Str → Bool
  writeOk : Str → Bool
  openAppendOk : Str → Bool
  appendOk : Str → Bool
  symlinkOk : Str → Bool
  lnForceOk : Str → Bool
  removeOk : Str → Bool
  renameOk : Str → Bool
  validateOk : Bool
  reloadOk : Bool

/-- The state after an operation, with the outcome of the validate and of the reload
capability when the operation called them. -/
structure Outcome where
  fs : FS
  validate : Option Bool
  reload : Option Bool

/-- Put a node (or nothing) at a name. -/
def fsSet (fs : FS) (p : Str) (n : Option Node) : FS := fun q => if q = p then n else fs q

/-- A path that starts at the root. -/
def isRooted (p : Str) : Bool := p.head? == some '/'

/-- The components of a path: what stands between its slashes. -/
def pathParts (p : Str) : List Str := (Split p '/').filter (fun c => !c.isEmpty)

/-- The name of the entry reached from the root through the components. -/
def entryName (cs : List Str) : Str := '/' :: Join cs ['/']

/-- Where a walk along a path stands: at an entry, before a symbolic link it has to
follow (the directory to go on from, and the components left), or at an error, which is
`ENOENT` when `notExist` is set. -/
inductive Walk where
  | reached (cs : List Str)
  | jump (cur rest : List Str)
  | fail (notExist : Bool)
  deriving DecidableEq

/-- Walk the components of a path from the directory `cur`, up to the first symbolic
link that has to be followed.  A link at the last component is followed when
`followLast` is set.  A component before the last has to be a directory or a link. -/
def walkTo (fs : FS) (followLast : Bool) : List Str → List Str → Walk
  | cur, [] => Walk.reached cur
  | cur, c :: rest =>
    if c = ".".toList then walkTo fs followLast cur rest
    else if c = "..".toList then walkTo fs followLast cur.dropLast rest
    else
      match fs (entryName (cur ++ [c])) with
      | some (Node.link target) =>
        if rest.isEmpty && !followLast then Walk.reached (cur ++ [c])
        else if target.isEmpty then Walk.fail true
        else Walk.jump (if isRooted target then [] else cur) (pathParts target ++ rest)
      | some Node.dir => walkTo fs followLast (cur ++ [c]) rest
      | some (Node.file _) =>
        if rest.isEmpty then Walk.reached (cur ++ [c]) else Walk.fail false
      | none => if rest.isEmpty then Walk.reached (cur ++ [c]) else Walk.fail true

/-- The number of symbolic links a path resolution follows before it gives up
(`ELOOP`). -/
def maxLinks : Nat := 40

/-- Walk a path to its end, following at most `n - 1` symbolic links. -/
def resolveFrom (fs : FS) (followLast : Bool) : Nat → List Str → List Str → Walk
  | 0, _, _ => Walk.fail false
  | n + 1, cur, rest =>
    match walkTo fs followLast cur rest with
    | Walk.jump cur₁ rest₁ => resolveFrom fs followLast n cur₁ rest₁
    | w => w

/-- Path resolution of a system call: the entry the path leads to (which may hold
nothing yet), or an error; the empty path is an error. -/
def resolve (env : Env) (fs : FS) (followLast : Bool) (p : Str) : Walk :=
  if p.isEmpty then Walk.fail true
  else resolveFrom fs followLast (maxLinks + 1)
    (if isRooted p then [] else pathParts env.cwd) (pathParts p)

/-- The name of the entry a path denotes for a call that follows links. -/
def fileAt (env : Env) (fs : FS) (p : Str) : Option Str :=
  match resolve env fs true p with
  | Walk.reached cs => some (entryName cs)
  | _ => none

/-- The name of the entry a path denotes for a call that acts on the entry itself. -/
def entryAt (env : Env) (fs : FS) (p : Str) : Option Str :=
  match resolve env fs false p with
  | Walk.reached cs => some (entryName cs)
  | _ => none

/-- Go `os.ReadFile`: the content of the regular file the path denotes. -/
def readFile (env : Env) (fs : FS) (p : Str) : Option Str :=
  match fileAt env fs p with
  | none => none
  | some q =>
    match fs q with
    | some (Node.file c) => if env.readOk p then some c else none
    | _ => none

/-- Go `os.Stat(p)` returns no error: the path denotes something. -/
def statOk (env : Env) (fs : FS) (p : Str) : Bool :=
  match fileAt env fs p with
  | none => false
  | some q => (fs q).isSome

/-- Go `os.IsNotExist(err)` for the error of `os.Stat(p)`: the path leads to no entry,
or the walk ends with `ENOENT`. -/
def statNotExist (env : Env) (fs : FS) (p : Str) : Bool :=
  match resolve env fs true p with
  | Walk.reached cs => (fs (entryName cs)).isNone
  | Walk.fail notExist => notExist
  | Walk.jump _ _ => false

/-- Go `os.WriteFile(p, c, 0644)`: the regular file the path denotes gets the content,
and is created when the path denotes nothing; `none` is the error result. -/
def writeFile (env : Env) (fs : FS) (p c : Str) : Option FS :=
  if env.writeOk p then
    match fileAt env fs p with
    | none => none
    | some q =>
      match fs q with
      | some Node.dir => none
      | some (Node.link _) => none
      | _ => some (fsSet fs q (some (Node.file c)))
  else none

/-- Go `os.OpenFile(p, os.O_APPEND|os.O_WRONLY, 0644)` (with `os.O_CREATE` when `create`
is set) followed by `WriteString(text)`, on the file the path denotes; the program
reports an error of either and goes on, so the result is the file system after the
attempt. -/
def appendFile (env : Env) (fs : FS) (create : Bool) (p text : Str) : FS :=
  if !env.openAppendOk p then fs
  else
    match fileAt env fs p with
    | none => fs
    | some q =>
      match fs q with
      | some (Node.file c) =>
        if env.appendOk p then fsSet fs q (some (Node.file (c ++ text))) else fs
      | some _ => fs
      | none =>
        if !create then fs
        else fsSet fs q (some (Node.file (if env.appendOk p then text else [])))

/-- Go `os.Symlink(target, linkPath)`: a new entry at the link path, which fails when
the entry exists (also as a link that leads nowhere) or the target is empty. -/
def symlink (env : Env) (fs : FS) (target linkPath : Str) : Option FS :=
  match entryAt env fs linkPath with
  | none => none
  | some q =>
    if (fs q).isNone && !target.isEmpty && env.symlinkOk linkPath
    then some (fsSet fs q (some (Node.link target))) else none

/-- The command `sudo ln -sf target linkPath`: when the link path denotes a directory
the link is made inside it, under the base name of the target; an entry in the way is
replaced unless it is a directory. -/
def lnForce (env : Env) (fs : FS) (target linkPath : Str) : Option FS :=
  let inside : Bool :=
    match fileAt env fs linkPath with
    | none => false
    | some q => fs q == some Node.dir
  let place : Str :=
    if inside then linkPath ++ '/' :: filepathBase target else linkPath
  match entryAt env fs place with
  | none => none
  | some q =>
    if fs q != some Node.dir && !target.isEmpty && env.lnForceOk linkPath
    then some (fsSet fs q (some (Node.link target))) else none

/-- Go `os.Remove(p)`: removes the entry itself, a link included. -/
def removePath (env : Env) (fs : FS) (p : Str) : Option FS :=
  match entryAt env fs p with
  | none => none
  | some q => if (fs q).isSome && env.removeOk p then some (fsSet fs q none) else none

/-- The name an entry `q` below the directory `dst` had when the directory was
`src`. -/
def movedFrom (src dst q : Str) : Option Str :=
  if (dst ++ ['/']).isPrefixOf q then some (src ++ q.drop dst.length) else none

/-- Go `os.Rename(oldPath, newPath)`: moves the entry itself, a link included, and with
a directory what is below it. -/
def renamePath (env : Env) (fs : FS) (oldPath newPath : Str) : Option FS :=
  match entryAt env fs oldPath, entryAt env fs newPath with
  | some src, some dst =>
    if (fs src).isSome && env.renameOk oldPath then
      if src = dst then some fs
      else some (fun q =>
        if q = dst then fs src
        else if fs src = some Node.dir ∧ (movedFrom src dst q).isSome then
          (movedFrom src dst q).bind fs
        else if q = src then none
        else if fs src = some Node.dir ∧ (src ++ ['/']).isPrefixOf q then none
        else fs q)
    else none
  | _, _ => none

/-- The prompt helper `getUserInput` (main.go 67-72): the reply, trimmed. -/
def getUserInput (reply : Str) : Str := TrimSpace reply

/-- Go `strings.ToLower(s) == t` for the one-letter words `e`, `d`, `t`, `y`: only the
letter and its ASCII capital lower to it. -/
def lowerIs (s t : Str) : Bool :=
  s.map (fun c => if 65 ≤ c.toNat ∧ c.toNat ≤ 90 then Char.ofNat (c.toNat + 32) else c) == t

/-- The index path `deployProxyConfig` computes from the content of `CONFIG_FILE`
(main.go 144-146): the first line, trimmed, is the base path; `none` stands for an
index out of range. -/
def configIndexPath (content : Str) : Option Str :=
  match Split content '\n' with
  | [] => none
  | first :: _ =>
    some (filepathJoin [filepathJoin [TrimSpace first, "nginx_data".toList],
      "config_index".toList])

/-- The index path `manageConfigurations` computes from the content of `CONFIG_FILE`
(main.go 320-321), with one three-element `filepath.Join`. -/
def manageIndexPath (content : Str) : Option Str :=
  match Split content '\n' with
  | [] => none
  | first :: _ =>
    some (filepathJoin [TrimSpace first, "nginx_data".toList, "config_index".toList])


/-! ## Create (`deployProxyConfig`) -/

/-- The replies to the prompts of `deployProxyConfig`, as typed. -/
structure DeployReplies where
  serviceType : Str
  domain : Str
  port : Str
  backendHost : Str
  addToHosts : Str
  customIp : Str

/-- The path of the generated config file (main.go 187). -/
def siteAvailablePath (primaryDomain : Str) : Str :=
  filepathJoin ["/etc/nginx/sites-available".toList, primaryDomain]

/-- The path of the enable-symlink (main.go 195, 621, 656). -/
def siteEnabledPath (name : Str) : Str :=
  filepathJoin ["/etc/nginx/sites-enabled".toList, name]

/-- The path of the hosts file. -/
def hostsPath : Str := "/etc/hosts".toList

/-- The materialise step of create (main.go 194-201) once the config file is written:
the enable-symlink is created when `os.Stat` reports that its path does not exist; a
failure is reported and the run goes on. -/
def deployLink (env : Env) (fs : FS) (siteAvailable siteEnabled : Str) : FS :=
  if statNotExist env fs siteEnabled then (symlink env fs siteAvailable siteEnabled).getD fs
  else fs

/-- The hosts step and the index step of create (main.go 222-256), after a successful
reload. -/
def deployRegister (env : Env) (r : DeployReplies) (fs : FS)
    (configIndex domainInput port backendHost siteAvailable : Str) : FS :=
  let wantsHosts := EqualFold (getUserInput r.addToHosts) "y".toList
  let customIp := getUserInput r.customIp
  let ipAddress : Str :=
    if wantsHosts && !customIp.isEmpty then customIp else "127.0.0.1".toList
  let fs₁ : FS :=
    if wantsHosts then
      appendFile env fs false hostsPath (createHostsText ipAddress domainInput)
    else fs
  appendFile env fs₁ true configIndex
    (configEntry domainInput port backendHost ipAddress siteAvailable env.nowMilli)

/-- The backend host create uses (main.go 175-178): the reply, or `127.0.0.1`. -/
def deployBackendHost (r : DeployReplies) : Str :=
  if (getUserInput r.backendHost).isEmpty then "127.0.0.1".toList else getUserInput r.backendHost

/-- The config text create renders (main.go 184):
`generateNginxConfig(domainInput, port, backendHost)`. -/
def deployConfigText (env : Env) (r : DeployReplies) : Str :=
  generateNginxConfig env.ts (getUserInput r.domain) (getUserInput r.port) (deployBackendHost r)

/-- `deployProxyConfig` (main.go 136-266).  `none` stands for a run-time panic (an
index out of range). -/
def deployProxyConfig (env : Env) (r : DeployReplies) (fs : FS) : Option Outcome :=
  match readFile env fs CONFIG_FILE with
  | none => some ⟨fs, none, none⟩
  | some content =>
    match configIndexPath content with
    | none => none
    | some configIndex =>
      if !EqualFold (getUserInput r.serviceType) "proxy".toList then some ⟨fs, none, none⟩
      else
        let domainInput := getUserInput r.domain
        if domainInput.isEmpty then some ⟨fs, none, none⟩
        else
          match Fields domainInput with
          | [] => none
          | primaryDomain :: _ =>
            let port := getUserInput r.port
            if port.isEmpty then some ⟨fs, none, none⟩
            else
              match Atoi port with
              | none => some ⟨fs, none, none⟩
              | some _ =>
                let backendHost := deployBackendHost r
                let nginxConfig := deployConfigText env r
                let siteAvailable := siteAvailablePath primaryDomain
                match writeFile env fs siteAvailable nginxConfig with
                | none => some ⟨fs, none, none⟩
                | some fs₁ =>
                  let fs₂ := deployLink env fs₁ siteAvailable (siteEnabledPath primaryDomain)
                  if !env.validateOk then some ⟨fs₂, some false, none⟩
                  else if !env.reloadOk then some ⟨fs₂, some true, some false⟩
                  else
                    some ⟨deployRegister env r fs₂ configIndex domainInput port backendHost
                      siteAvailable, some true, some true⟩


/-! ## Edit (`editConfiguration`, `updateHostsFile`) -/

/-- The replies to the four prompts of `editConfiguration`, as typed. -/
structure EditReplies where
  domain : Str
  port : Str
  host : Str
  ip : Str

/-- The default address `127.0.0.1`. -/
def defaultAddr : Str := "127.0.0.1".toList

/-- The old value a prompt of edit shows for `host` and for `ip` (main.go 421-428):
the field, or `127.0.0.1` when it is empty. -/
def orDefaultAddr (v : Str) : Str := if v.isEmpty then defaultAddr else v

/-- The primary domain of a domain field: its first white-space separated token. -/
def primaryDomain (domain : Str) : Option Str := (Fields domain).head?

/-- The new domain string of an edit (main.go 430, 435-437): the trimmed reply, or the
old domain when the reply is empty. -/
def editNewDomain (config : GoMap) (r : EditReplies) : Str :=
  if (getUserInput r.domain).isEmpty then mapGet config "domain".toList
  else getUserInput r.domain

/-- What `editConfiguration` computes from the record and the replies before it touches
any file (main.go 418-473). -/
structure EditPlan where
  config : GoMap
  oldDomain : Str
  oldPort : Str
  oldHost : Str
  oldIp : Str
  newDomain : Str
  newPort : Str
  newHost : Str
  newIp : Str
  oldPrimary : Str
  newPrimary : Str
  oldPath : Str
  newPath : Str
  domainChanged : Bool

/-- The field computations of `editConfiguration` (main.go 418-473).  `none` stands for
the run-time panic of `newDomains[0]` or `oldDomains[0]` on an empty slice. -/
def editPlan (config : GoMap) (r : EditReplies) : Option EditPlan :=
  let oldDomain := mapGet config "domain".toList
  let oldPort := mapGet config "port".toList
  let oldIp := orDefaultAddr (mapGet config "ip".toList)
  let oldHost := orDefaultAddr (mapGet config "host".toList)
  let newDomain := editNewDomain config r
  let newPort := if (getUserInput r.port).isEmpty then oldPort else getUserInput r.port
  let newHost := if (getUserInput r.host).isEmpty then oldHost else getUserInput r.host
  let newIp := getUserInput r.ip
  match Fields newDomain with
  | [] => none
  | newPrimary :: _ =>
    match Fields oldDomain with
    | [] => none
    | oldPrimary :: _ =>
      let config₁ :=
        mapSet (mapSet (mapSet (mapSet config "domain".toList newDomain) "port".toList newPort)
          "host".toList newHost) "ip".toList newIp
      let oldPath := mapGet config₁ "path".toList
      let domainChanged : Bool := oldPrimary != newPrimary
      let newPath :=
        if domainChanged then filepathJoin [filepathDir oldPath, newPrimary] else oldPath
      let config₂ := if domainChanged then mapSet config₁ "path".toList newPath else config₁
      some ⟨config₂, oldDomain, oldPort, oldHost, oldIp, newDomain, newPort, newHost, newIp,
        oldPrimary, newPrimary, oldPath, newPath, domainChanged⟩

/-- The rename step of edit when the primary domain changed (main.go 467-509): remove
the old symlink, move the config file, create the new symlink, with `ln -sf` as the
fallback; each failure is reported and the run goes on. -/
def editRename (env : Env) (fs : FS) (oldPath newPath newPrimary : Str) : FS :=
  let oldFilename := filepathBase oldPath
  let availableDir := filepathDir oldPath
  let enabledDir := filepathJoin [filepathDir availableDir, "sites-enabled".toList]
  let oldLink := filepathJoin [enabledDir, oldFilename]
  let newLink := filepathJoin [enabledDir, newPrimary]
  let fs₁ := if statOk env fs oldLink then (removePath env fs oldLink).getD fs else fs
  let fs₂ := if statOk env fs₁ oldPath then (renamePath env fs₁ oldPath newPath).getD fs₁ else fs₁
  match symlink env fs₂ newPath newLink with
  | some fs₃ => fs₃
  | none => (lnForce env fs₂ newPath newLink).getD fs₂

/-- `updateHostsFile` (main.go 555-605).  When the hosts file cannot be read or written
the line is offered for a manual edit and the file is left as it is. -/
def updateHostsFile (env : Env) (fs : FS) (oldDomain newDomain newIp : Str) : FS :=
  match readFile env fs hostsPath with
  | none => fs
  | some content =>
    (writeFile env fs hostsPath (updateHostsContent oldDomain newDomain newIp content)).getD fs

/-- `editConfiguration` (main.go 417-553): the new list of index lines and the state.
`none` stands for a run-time panic (an index out of range). -/
def editConfiguration (env : Env) (ord : GoMap → GoMap) (r : EditReplies)
    (configs : List Str) (index : Nat) (configIndex : Str) (fs : FS) :
    Option (List Str × Outcome) :=
  match configs[index]? with
  | none => none
  | some line =>
    match editPlan (parseConfigLine line) r with
    | none => none
    | some p =>
      let fs₁ := if p.domainChanged then editRename env fs p.oldPath p.newPath p.newPrimary else fs
      let nginxConfig := generateNginxConfig env.ts p.newDomain p.newPort p.newHost
      let fs₂ := (writeFile env fs₁ p.newPath nginxConfig).getD fs₁
      let configs₁ := configs.set index (serializeConfig ord p.config)
      let fs₃ := (writeFile env fs₂ configIndex (indexContent configs₁)).getD fs₂
      let fs₄ := updateHostsFile env fs₃ p.oldDomain p.newDomain p.newIp
      some (configs₁,
        ⟨fs₄, some env.validateOk, if env.validateOk then some env.reloadOk else none⟩)

/-! ## Toggle and delete -/

/-- The status toggle computes (main.go 647-654). -/
def toggleStatus (config : GoMap) : Str :=
  let currentStatus :=
    if (mapGet config "status".toList).isEmpty then "active".toList
    else mapGet config "status".toList
  if currentStatus = "active".toList then "inactive".toList else "active".toList

/-- The line toggle writes back at the selected position (main.go 667-672). -/
def toggleLine (ord : GoMap → GoMap) (config : GoMap) : Str :=
  serializeConfig ord (mapSet config "status".toList (toggleStatus config))

/-- The symlink step of toggle (main.go 656-665). -/
def toggleLink (env : Env) (fs : FS) (config : GoMap) : FS :=
  let enabledPath := siteEnabledPath (mapGet config "domain".toList)
  let availablePath := mapGet config "path".toList
  if toggleStatus config = "active".toList then
    (if statNotExist env fs enabledPath then (symlink env fs availablePath enabledPath).getD fs
     else fs)
  else (removePath env fs enabledPath).getD fs

/-- `toggleConfiguration` (main.go 645-678): the new list of index lines and the state.
`none` stands for a run-time panic (an index out of range). -/
def toggleConfiguration (env : Env) (ord : GoMap → GoMap) (configs : List Str) (index : Nat)
    (config : GoMap) (configIndex : Str) (fs : FS) : Option (List Str × Outcome) :=
  let fs₁ := toggleLink env fs config
  if index < configs.length then
    let configs₁ := configs.set index (toggleLine ord config)
    let fs₂ := (writeFile env fs₁ configIndex (indexContent configs₁)).getD fs₁
    some (configs₁, ⟨fs₂, none, some env.reloadOk⟩)
  else none

/-- The hosts step of delete (main.go 623-635). -/
def deleteHosts (env : Env) (fs : FS) (domain : Str) : FS :=
  match readFile env fs hostsPath with
  | none => fs
  | some content => (writeFile env fs hostsPath (deleteHostsContent domain content)).getD fs

/-- `deleteConfiguration` (main.go 615-643): the new list of index lines and the state.
`none` stands for a run-time panic (a slice bound out of range). -/
def deleteConfiguration (env : Env) (configs : List Str) (index : Nat) (config : GoMap)
    (configIndex : Str) (fs : FS) : Option (List Str × Outcome) :=
  let domain := mapGet config "domain".toList
  let path := mapGet config "path".toList
  let fs₁ := (removePath env fs path).getD fs
  let fs₂ := (removePath env fs₁ (siteEnabledPath domain)).getD fs₁
  let fs₃ := deleteHosts env fs₂ domain
  if index < configs.length then
    let configs₁ := configs.eraseIdx index
    let fs₄ := (writeFile env fs₃ configIndex (indexContent configs₁)).getD fs₃
    some (configs₁, ⟨fs₄, none, some env.reloadOk⟩)
  else none

/-! ## The management session (`manageConfigurations`) -/

/-- The replies to the prompts of `manageConfigurations`, as typed. -/
structure ManageReplies where
  selection : Str
  action : Str
  edit : EditReplies

/-- `manageConfigurations` (main.go 314-402).  `none` stands for a run-time panic.  The
list of lines is empty exactly when the function reports an empty database: a trimmed
content that is not empty starts with a line that is not blank. -/
def manageConfigurations (env : Env) (ord : GoMap → GoMap) (r : ManageReplies) (fs : FS) :
    Option Outcome :=
  match readFile env fs CONFIG_FILE with
  | none => some ⟨fs, none, none⟩
  | some content =>
    match manageIndexPath content with
    | none => none
    | some configIndex =>
      if statNotExist env fs configIndex then some ⟨fs, none, none⟩
      else
        match readFile env fs configIndex with
        | none => some ⟨fs, none, none⟩
        | some indexText =>
          let configurations := loadConfigurations indexText
          if configurations.isEmpty then some ⟨fs, none, none⟩
          else if (getUserInput r.selection).isEmpty then some ⟨fs, none, none⟩
          else
            match Atoi (getUserInput r.selection) with
            | none => some ⟨fs, none, none⟩
            | some sel =>
              if sel < 1 ∨ sel > (configurations.length : Int) then some ⟨fs, none, none⟩
              else
                let index := (sel - 1).toNat
                match configurations[index]? with
                | none => none
                | some configLine =>
                  let config := parseConfigLine configLine
                  if lowerIs (getUserInput r.action) ['e'] then
                    (editConfiguration env ord r.edit configurations index configIndex fs).map
                      Prod.snd
                  else if lowerIs (getUserInput r.action) ['d'] then
                    (deleteConfiguration env configurations index config configIndex fs).map
                      Prod.snd
                  else if lowerIs (getUserInput r.action) ['t'] then
                    (toggleConfiguration env ord configurations index config configIndex fs).map
                      Prod.snd
                  else some ⟨fs, none, none⟩


/-! ## Concrete records and files used by the evaluations below -/

/-- A record whose domain value ends with a space. -/
def paddedRecord : GoMap := [("domain".toList, "a.test ".toList)]

/-- A record of three fields, as create and toggle write them. -/
def sampleRecord : GoMap :=
  [("domain".toList, "a.test b.test".toList), ("port".toList, "8080".toList),
   ("status".toList, "active".toList)]

/-- A record whose domain value holds a comma, as typed at a prompt of edit. -/
def commaRecord : GoMap :=
  [("domain".toList, "a.test,b.test".toList), ("port".toList, "80".toList)]

/-- The working directory of the runs below. -/
def workDir : Str := "/opt/fastnginx".toList

/-- The directory entry of `CONFIG_FILE` in the working directory. -/
def configFileEntry : Str := "/opt/fastnginx/.fastnginx_config".toList

/-- The directories of the file systems below. -/
def sysDirs : List Str :=
  ["/".toList, "/etc".toList, "/etc/nginx".toList, "/etc/nginx/sites-available".toList,
   "/etc/nginx/sites-enabled".toList, "/srv".toList, "/srv/nginx_data".toList,
   "/opt".toList, "/opt/fastnginx".toList]

/-- The directory node at a name of `sysDirs`, nothing elsewhere. -/
def dirsOnly : FS := fun p => if sysDirs.contains p then some Node.dir else none

/-- An environment in which every system call and both capabilities succeed. -/
def okEnv : Env :=
  ⟨"2026-01-01 00:00:00 +0000 UTC".toList, 1700000000001, workDir, fun _ => true,
    fun _ => true,
    fun _ => true, fun _ => true, fun _ => true, fun _ => true, fun _ => true, fun _ => true,
    true, true⟩

/-- The index path below the base path `/srv`. -/
def srvIndex : Str := "/srv/nginx_data/config_index".toList

/-- The index line of the record of `a.test`, as a rewrite stores it. -/
def lineA : Str :=
  ("domain=a.test,port=3000,host=127.0.0.1,type=proxy,ip=127.0.0.1," ++
   "path=/etc/nginx/sites-available/a.test,status=active,created=1700000000000").toList

/-- A file system after a full rewrite of the index for the one record of `a.test`:
the base path is `/srv`, and the index holds the line without a final newline. -/
def fsAfterRewrite : FS := fun p =>
  if p = configFileEntry then some (Node.file "/srv\n".toList)
  else if p = srvIndex then some (Node.file (indexContent [lineA]))
  else if p = hostsPath then some (Node.file "127.0.0.1\tlocalhost\n".toList)
  else if p = "/etc/nginx/sites-available/a.test".toList then some (Node.file "server".toList)
  else if p = "/etc/nginx/sites-enabled/a.test".toList then
    some (Node.link "/etc/nginx/sites-available/a.test".toList)
  else dirsOnly p

/-- The replies of a create run for `b.test` on port 4000, without a hosts entry. -/
def repliesB : DeployReplies :=
  ⟨"proxy".toList, "b.test".toList, "4000".toList, [], "n".toList, []⟩

/-- The index content after the create run for `b.test` on `fsAfterRewrite`. -/
def mergedIndex : Str :=
  ("domain=a.test,port=3000,host=127.0.0.1,type=proxy,ip=127.0.0.1," ++
   "path=/etc/nginx/sites-available/a.test,status=active,created=1700000000000" ++
   "domain=b.test,port=4000,host=127.0.0.1,type=proxy,ip=127.0.0.1," ++
   "path=/etc/nginx/sites-available/b.test,status=active,created=1700000000001\n").toList

/-- An environment in which every system call succeeds and validate reports failure. -/
def badConfigEnv : Env :=
  ⟨"2026-01-01 00:00:00 +0000 UTC".toList, 1700000000001, workDir, fun _ => true,
    fun _ => true,
    fun _ => true, fun _ => true, fun _ => true, fun _ => true, fun _ => true, fun _ => true,
    false, true⟩

/-- The replies of a create run whose domain climbs out of the sites directory to the
index file below `/srv`. -/
def repliesClimb : DeployReplies :=
  ⟨"proxy".toList, "../../../srv/nginx_data/config_index".toList, "80".toList, [],
    "n".toList, []⟩

/-- The outcome of the create run for `b.test` when validate fails. -/
def outcomeB : Outcome :=
  ⟨deployLink badConfigEnv
      (fsSet fsAfterRewrite (siteAvailablePath "b.test".toList)
        (some (Node.file (deployConfigText badConfigEnv repliesB))))
      (siteAvailablePath "b.test".toList) (siteEnabledPath "b.test".toList),
    some false, none⟩

/-- The replies of a create run for `x.test` on port 80, without a hosts entry. -/
def repliesX : DeployReplies :=
  ⟨"proxy".toList, "x.test".toList, "80".toList, [], "n".toList, []⟩

/-- The replies of a create run for the domain `config_index` on port 80. -/
def repliesIndexName : DeployReplies :=
  ⟨"proxy".toList, "config_index".toList, "80".toList, [], "n".toList, []⟩

/-- The environment `badConfigEnv` with the working directory `/srv`. -/
def srvEnv : Env :=
  ⟨"2026-01-01 00:00:00 +0000 UTC".toList, 1700000000001, "/srv".toList, fun _ => true,
    fun _ => true,
    fun _ => true, fun _ => true, fun _ => true, fun _ => true, fun _ => true, fun _ => true,
    false, true⟩

/-- A file system whose base path is `.`: run from `/srv`, the index path is the
relative path `nginx_data/config_index`. -/
def fsRelative : FS := fun p =>
  if p = "/srv/.fastnginx_config".toList then some (Node.file ".\n".toList)
  else if p = srvIndex then some (Node.file (indexContent [lineA]))
  else dirsOnly p

/-- The file system `fsAfterRewrite` with a symbolic link to the index file at the
config path of `x.test`. -/
def fsLinkedFile : FS :=
  fsSet fsAfterRewrite "/etc/nginx/sites-available/x.test".toList (some (Node.link srvIndex))

/-- The file system `fsAfterRewrite` in which `/etc/nginx/sites-available` is a
symbolic link to the data directory `/srv/nginx_data`. -/
def fsLinkedDir : FS :=
  fsSet fsAfterRewrite "/etc/nginx/sites-available".toList
    (some (Node.link "/srv/nginx_data".toList))

/-- The index line of a record of `a.test` whose path has the file name `a.test`. -/
def lineShort : Str :=
  "domain=a.test,port=3000,path=/etc/nginx/sites-available/a.test,status=active".toList

/-- Edit replies that change the domain to `b.test/x` and keep the rest. -/
def repliesSlash : EditReplies := ⟨"b.test/x".toList, [], [], []⟩

/-- Edit replies that change the domain to `b.test` and keep the rest. -/
def repliesRename : EditReplies := ⟨"b.test".toList, [], [], "127.0.0.1".toList⟩

/-- A hosts file with a managed line for `a.test` that carries a note after the
marker. -/
def hostsAnnotated : Str :=
  "127.0.0.1\tlocalhost\n127.0.0.1\ta.test\t# Added by FastNginx (staging)".toList

/-- The replies of a create run for `c.test` on port 5000 that asks for a hosts entry
with the default address. -/
def repliesHosts : DeployReplies :=
  ⟨"proxy".toList, "c.test".toList, "5000".toList, [], "y".toList, []⟩

/-- The hosts content after two create runs for `c.test` on `fsAfterRewrite`. -/
def hostsTwice : Str :=
  ("127.0.0.1\tlocalhost\n" ++
   "\n127.0.0.1\tc.test\t# Added by FastNginx\n" ++
   "\n127.0.0.1\tc.test\t# Added by FastNginx\n").toList

/-- The number of lines of a hosts content that are a managed entry for the domain. -/
def managedCount (domain content : Str) : Nat :=
  ((Split content '\n').filter (isManagedEntry domain)).length

/-- An index line without a domain field. -/
def lineNoDomain : Str := "port=3000,status=active".toList

/-- An index line without any `=`. -/
def lineNoEquals : Str := "garbage".toList

/-- An index line whose domain value is empty. -/
def lineEmptyDomain : Str := "domain=,port=3000,status=active".toList

/-- The index line of a record of `a.test` with a backend host and a hosts-file ip. -/
def lineFull : Str :=
  ("domain=a.test,port=3000,host=10.0.0.9,type=proxy,ip=10.0.0.5," ++
   "path=/etc/nginx/sites-available/a.test,status=active").toList

/-- Four blank replies to the prompts of edit. -/
def blankReplies : EditReplies := ⟨[], [], [], []⟩

/-- A file system whose index holds `lineFull` and whose hosts file holds the managed
line of `a.test` with the ip `10.0.0.5`. -/
def fsFull : FS := fun p =>
  if p = configFileEntry then some (Node.file "/srv\n".toList)
  else if p = srvIndex then some (Node.file (indexContent [lineFull]))
  else if p = hostsPath then
    some (Node.file "127.0.0.1\tlocalhost\n10.0.0.5\ta.test\t# Added by FastNginx\n".toList)
  else if p = "/etc/nginx/sites-available/a.test".toList then some (Node.file "server".toList)
  else if p = "/etc/nginx/sites-enabled/a.test".toList then
    some (Node.link "/etc/nginx/sites-available/a.test".toList)
  else dirsOnly p

/-- A file system before the first create: base path `/srv`, an empty index. -/
def fsFresh : FS := fun p =>
  if p = configFileEntry then some (Node.file "/srv\n".toList)
  else if p = srvIndex then some (Node.file [])
  else if p = hostsPath then some (Node.file "127.0.0.1\tlocalhost\n".toList)
  else dirsOnly p

/-- The replies of a create run for the two names `a.test b.test` on port 3000. -/
def repliesTwoNames : DeployReplies :=
  ⟨"proxy".toList, "a.test b.test".toList, "3000".toList, [], "n".toList, []⟩

/-- The replies of a management session that toggles the first record. -/
def toggleFirst : ManageReplies := ⟨"1".toList, "t".toList, blankReplies⟩

/-- The replies of a management session that deletes the first record. -/
def deleteFirst : ManageReplies := ⟨"1".toList, "d".toList, blankReplies⟩

/-- The symlink create makes for the domain `a.test b.test`. -/
def linkPrimary : Str := "/etc/nginx/sites-enabled/a.test".toList

/-- The symlink path toggle and delete compute for the domain `a.test b.test`. -/
def linkWholeField : Str := "/etc/nginx/sites-enabled/a.test b.test".toList

/-- What the symlink invariant is about: the node at the symlink of the primary domain,
the node at the path named after the whole domain field, and the status of every
record of the index. -/
def observeLinks (o : Outcome) : Option Node × Option Node × Option (List Str) :=
  (o.fs linkPrimary, o.fs linkWholeField,
    (readFile okEnv o.fs srvIndex).map
      (fun c => (loadRecords c).map (fun m => mapGet m "status".toList)))

/-- The create run for `a.test b.test` on the fresh file system. -/
def afterCreateTwoNames : Option Outcome := deployProxyConfig okEnv repliesTwoNames fsFresh

/-- The create run followed by a management session. -/
def afterCreateThen (r : ManageReplies) : Option Outcome :=
  afterCreateTwoNames.bind (fun o => manageConfigurations okEnv id r o.fs)


/-! ## Codec lemmas -/

theorem splitN2_eq (s : Str) (sep : Char) :
    SplitN2 s sep =
      match s.dropWhile (fun c => c != sep) with
      | [] => [s.takeWhile (fun c => c != sep)]
      | _ :: b => [s.takeWhile (fun c => c != sep), b] := by
  simp only [SplitN2, List.span_eq_take_drop]
  cases List.dropWhile (fun c => c != sep) s <;> rfl

theorem splitN2_kvPart (k v : Str) (hk : '=' ∉ k) : SplitN2 (k ++ '=' :: v) '=' = [k, v] := by
  have hall : ∀ c ∈ k, (c != '=') = true := by
    intro c hc
    simp only [bne_iff_ne, ne_eq]
    rintro rfl
    exact hk hc
  have h1 : (k ++ '=' :: v).dropWhile (fun c => c != '=') = '=' :: v := by
    rw [List.dropWhile_append_of_pos hall]
    simp [List.dropWhile_cons]
  have h2 : (k ++ '=' :: v).takeWhile (fun c => c != '=') = k := by
    rw [List.takeWhile_append_of_pos hall]
    simp [List.takeWhile_cons]
  rw [splitN2_eq, h1, h2]

theorem mapSet_of_not_mem (m : GoMap) (k v : Str) (h : k ∉ mapKeys m) :
    mapSet m k v = m ++ [(k, v)] := by
  induction m with
  | nil => rfl
  | cons e m ih =>
    obtain ⟨k', v'⟩ := e
    have h1 : k' ≠ k := fun h' => h (by simp [mapKeys, h'])
    have h2 : k ∉ mapKeys m := fun h' => h (by simp [mapKeys] at h' ⊢; exact Or.inr h')
    simp [mapSet, h1, ih h2]

theorem foldl_parse_clean (es acc : GoMap)
    (hnd : (mapKeys es).Nodup) (hdis : ∀ k ∈ mapKeys es, k ∉ mapKeys acc)
    (hc : ∀ e ∈ es, CleanKey e.1 ∧ CleanVal e.2) :
    (es.map kvPart).foldl
      (fun result part =>
        match SplitN2 part '=' with
        | [k, v] => mapSet result (TrimSpace k) (TrimSpace v)
        | _ => result) acc = acc ++ es := by
  induction es generalizing acc with
  | nil => simp
  | cons e es ih =>
    obtain ⟨k, v⟩ := e
    have hck := (hc (k, v) (by simp)).1
    have hcv := (hc (k, v) (by simp)).2
    simp only [mapKeys, List.map_cons, List.nodup_cons] at hnd
    have hkacc : k ∉ mapKeys acc := hdis k (by simp [mapKeys])
    simp only [List.map_cons, List.foldl_cons, kvPart, splitN2_kvPart k v hck.2.2, hck.1, hcv.1]
    rw [mapSet_of_not_mem acc k v hkacc, ih (acc ++ [(k, v)]) hnd.2]
    · simp
    · intro k' hk' hmem
      simp only [mapKeys, List.map_append, List.map_cons, List.map_nil, List.mem_append,
        List.mem_singleton] at hmem
      rcases hmem with hmem | hmem
      · exact hdis k' (by simp only [mapKeys, List.map_cons, List.mem_cons]; exact Or.inr hk') hmem
      · exact hnd.1 (hmem ▸ hk')
    · intro e he
      exact hc e (by simp [he])

theorem kvPart_no_comma (e : Str × Str) (h : CleanKey e.1 ∧ CleanVal e.2) : ',' ∉ kvPart e := by
  simp only [kvPart, List.mem_append, List.mem_cons, not_or]
  exact ⟨h.1.2.1, by decide, h.2.2⟩

theorem parse_join_clean (es : GoMap) (h : CleanMap es) :
    parseConfigLine (Join (es.map kvPart) [',']) = es := by
  unfold parseConfigLine Split Join
  by_cases hes : es = []
  · subst hes; decide
  · rw [List.splitOn_intercalate]
    · simpa using foldl_parse_clean es [] h.1 (by simp [mapKeys]) h.2
    · intro l hl
      simp only [List.mem_map] at hl
      obtain ⟨e, he, rfl⟩ := hl
      exact kvPart_no_comma e (h.2 e he)
    · simpa using hes


/-! ## White space lemmas -/

theorem dropWhile_self_of_head (s : Str) (h : ∀ c, s.head? = some c → isSpace c = false) :
    s.dropWhile isSpace = s := by
  cases s with
  | nil => rfl
  | cons a s => simp [List.dropWhile_cons, h a rfl]

theorem rdropWhile_self_of_last (s : Str) (h : ∀ c, s.getLast? = some c → isSpace c = false) :
    s.rdropWhile isSpace = s := by
  rw [List.rdropWhile_eq_self_iff]
  intro hl
  have := h (s.getLast hl) (List.getLast?_eq_getLast s hl)
  simp [this]

theorem trimSpace_of_trimmed (s : Str) (h : Trimmed s) : TrimSpace s = s := by
  unfold TrimSpace
  rw [dropWhile_self_of_head s h.1, rdropWhile_self_of_last s h.2]

theorem trimmed_trimSpace (s : Str) : Trimmed (TrimSpace s) := by
  unfold TrimSpace
  constructor
  · intro c hc
    have hpre : (s.dropWhile isSpace).rdropWhile isSpace <+: s.dropWhile isSpace :=
      List.rdropWhile_prefix _ _
    obtain ⟨t, ht⟩ := hpre
    cases hu : (s.dropWhile isSpace).rdropWhile isSpace with
    | nil => rw [hu] at hc; simp at hc
    | cons a u =>
      rw [hu] at hc ht
      simp only [List.head?_cons, Option.some.injEq] at hc
      subst hc
      have hne : s.dropWhile isSpace ≠ [] := by rw [← ht]; simp
      have := List.head_dropWhile_not isSpace s hne
      simp only [← ht, List.cons_append, List.head_cons] at this
      exact this
  · intro c hc
    by_cases hne : (s.dropWhile isSpace).rdropWhile isSpace = []
    · rw [hne] at hc; simp at hc
    · have := List.rdropWhile_last_not isSpace (s.dropWhile isSpace) hne
      rw [List.getLast?_eq_getLast _ hne] at hc
      simp only [Option.some.injEq] at hc
      subst hc
      simpa using this

theorem trimSpace_idem (s : Str) : TrimSpace (TrimSpace s) = TrimSpace s :=
  trimSpace_of_trimmed _ (trimmed_trimSpace s)

theorem trimmed_of_trimSpace_eq (s : Str) (h : TrimSpace s = s) : Trimmed s := by
  rw [← h]; exact trimmed_trimSpace s

theorem trimSpace_within (s : Str) : TrimSpace s <:+: s := by
  unfold TrimSpace
  exact (List.rdropWhile_prefix _ _).isInfix.trans (List.dropWhile_suffix _).isInfix

theorem not_mem_trimSpace (c : Char) (s : Str) (h : c ∉ s) : c ∉ TrimSpace s :=
  fun hc => h ((trimSpace_within s).subset hc)

/-! ## Map lemmas -/

theorem mapLookup_eq_some_iff (m : GoMap) (hnd : (mapKeys m).Nodup) (k v : Str) :
    mapLookup m k = some v ↔ (k, v) ∈ m := by
  induction m with
  | nil => simp [mapLookup]
  | cons e m ih =>
    obtain ⟨k', v'⟩ := e
    simp only [mapKeys, List.map_cons, List.nodup_cons] at hnd
    by_cases hk : k = k'
    · subst hk
      simp only [mapLookup, List.lookup_cons, beq_self_eq_true, Option.some.injEq, List.mem_cons,
        Prod.mk.injEq, true_and]
      constructor
      · intro h; exact Or.inl h.symm
      · rintro (h | h)
        · exact h.symm
        · exact absurd (List.mem_map_of_mem Prod.fst h) hnd.1
    · have hb : (k == k') = false := by simpa using hk
      simp only [mapLookup, List.lookup_cons, hb, List.mem_cons, Prod.mk.injEq, hk, false_and,
        false_or]
      exact ih hnd.2

theorem mapEq_of_perm (m₁ m₂ : GoMap) (hnd : (mapKeys m₂).Nodup) (hp : m₁.Perm m₂) :
    MapEq m₁ m₂ := by
  have hnd1 : (mapKeys m₁).Nodup := (hp.map Prod.fst).nodup_iff.mpr hnd
  intro k
  cases h1 : mapLookup m₁ k with
  | some v =>
    have := (mapLookup_eq_some_iff m₁ hnd1 k v).mp h1
    exact ((mapLookup_eq_some_iff m₂ hnd k v).mpr (hp.mem_iff.mp this)).symm
  | none =>
    cases h2 : mapLookup m₂ k with
    | none => rfl
    | some v =>
      have := (mapLookup_eq_some_iff m₂ hnd k v).mp h2
      have := (mapLookup_eq_some_iff m₁ hnd1 k v).mpr (hp.mem_iff.mpr this)
      rw [h1] at this
      cases this

theorem serialize_round_trip (ord : GoMap → GoMap) (r : GoMap)
    (hord : (ord r).Perm r) (hr : CleanMap r) :
    parseConfigLine (serializeConfig ord r) = ord r := by
  unfold serializeConfig
  apply parse_join_clean
  refine ⟨(hord.map Prod.fst).nodup_iff.mpr hr.1, fun e he => hr.2 e (hord.mem_iff.mp he)⟩


theorem splitOnP_not_mem (p : Char → Bool) (xs : Str) :
    ∀ l ∈ xs.splitOnP p, ∀ x ∈ l, p x = false := by
  induction xs with
  | nil => simp
  | cons a xs ih =>
    rw [List.splitOnP_cons]
    by_cases ha : p a = true
    · simp only [ha, if_true, List.mem_cons]
      rintro l (rfl | hl) x hx
      · simp at hx
      · exact ih l hl x hx
    · simp only [ha, Bool.false_eq_true, if_false]
      cases hs : List.splitOnP p xs with
      | nil => simp [List.modifyHead]
      | cons h t =>
        rw [hs] at ih
        simp only [List.modifyHead, List.mem_cons]
        rintro l (rfl | hl) x hx
        · simp only [List.mem_cons] at hx
          rcases hx with rfl | hx
          · simpa using ha
          · exact ih h (by simp) x hx
        · exact ih l (by simp [hl]) x hx

theorem split_not_mem (s : Str) (sep : Char) : ∀ l ∈ Split s sep, sep ∉ l := by
  intro l hl hmem
  have := splitOnP_not_mem (fun c => c == sep) s l hl sep hmem
  simp at this

theorem mapKeys_mapSet (m : GoMap) (k v : Str) :
    mapKeys (mapSet m k v) = if k ∈ mapKeys m then mapKeys m else mapKeys m ++ [k] := by
  induction m with
  | nil => simp [mapSet, mapKeys]
  | cons e m ih =>
    obtain ⟨k', v'⟩ := e
    by_cases hk : k' = k
    · subst hk
      simp [mapSet, mapKeys]
    · have hk2 : ¬ k = k' := fun h => hk h.symm
      simp only [mapSet, hk, if_false]
      simp only [mapKeys, List.map_cons, List.mem_cons, hk2, false_or] at ih ⊢
      rw [ih]
      split <;> simp

theorem nodup_mapSet (m : GoMap) (k v : Str) (h : (mapKeys m).Nodup) :
    (mapKeys (mapSet m k v)).Nodup := by
  rw [mapKeys_mapSet]
  split
  · exact h
  · rename_i hk
    exact List.Nodup.append h (by simp) (by simpa using hk)

theorem mem_mapSet (m : GoMap) (k v : Str) (e : Str × Str) (he : e ∈ mapSet m k v) :
    e = (k, v) ∨ e ∈ m := by
  induction m with
  | nil => simp [mapSet] at he; exact Or.inl he
  | cons e' m ih =>
    obtain ⟨k', v'⟩ := e'
    by_cases hk : k' = k
    · subst hk
      simp only [mapSet, if_true, List.mem_cons] at he
      rcases he with rfl | he
      · exact Or.inl rfl
      · exact Or.inr (by simp [he])
    · simp only [mapSet, hk, if_false, List.mem_cons] at he
      rcases he with rfl | he
      · exact Or.inr (by simp)
      · rcases ih he with h | h
        · exact Or.inl h
        · exact Or.inr (by simp [h])

theorem mapLookup_mapSet (m : GoMap) (k v k' : Str) :
    mapLookup (mapSet m k v) k' = if k' = k then some v else mapLookup m k' := by
  induction m with
  | nil =>
    by_cases h : k' = k
    · simp [mapSet, mapLookup, List.lookup, h]
    · have hb : (k' == k) = false := by simpa using h
      simp [mapSet, mapLookup, List.lookup, h, hb]
  | cons e m ih =>
    obtain ⟨k₀, v₀⟩ := e
    by_cases hk : k₀ = k
    · subst hk
      by_cases h : k' = k₀
      · simp [mapSet, mapLookup, List.lookup_cons, h]
      · have hb : (k' == k₀) = false := by simpa using h
        simp [mapSet, mapLookup, List.lookup_cons, h, hb]
    · simp only [mapSet, hk, if_false]
      by_cases h0 : k' = k₀
      · subst h0
        simp [mapLookup, List.lookup_cons, hk]
      · have hb : (k' == k₀) = false := by simpa using h0
        simp only [mapLookup, List.lookup_cons, hb] at ih ⊢
        exact ih

theorem cleanMap_mapSet (m : GoMap) (k v : Str) (hm : CleanMap m) (hk : CleanKey k)
    (hv : CleanVal v) : CleanMap (mapSet m k v) := by
  refine ⟨nodup_mapSet m k v hm.1, fun e he => ?_⟩
  rcases mem_mapSet m k v e he with rfl | h
  · exact ⟨hk, hv⟩
  · exact hm.2 e h

theorem cleanMap_nil : CleanMap [] := ⟨by simp [mapKeys], by simp⟩

theorem splitN2_clean (part : Str) (hpart : ',' ∉ part) (k v : Str)
    (h : SplitN2 part '=' = [k, v]) : CleanKey (TrimSpace k) ∧ CleanVal (TrimSpace v) := by
  rw [splitN2_eq] at h
  have hsuf := List.dropWhile_suffix (fun c => c != '=') (l := part)
  have hpre := List.takeWhile_prefix (fun c => c != '=') (l := part)
  cases hd : List.dropWhile (fun c => c != '=') part with
  | nil => rw [hd] at h; simp at h
  | cons a b =>
    rw [hd] at h hsuf
    simp only [List.cons.injEq, and_true] at h
    obtain ⟨hk, hv⟩ := h
    subst hk hv
    refine ⟨⟨trimSpace_idem _, ?_, ?_⟩, ⟨trimSpace_idem _, ?_⟩⟩
    · exact not_mem_trimSpace _ _ (fun hc => hpart (hpre.subset hc))
    · apply not_mem_trimSpace
      intro hc
      have := List.mem_takeWhile_imp hc
      simp at this
    · apply not_mem_trimSpace
      intro hc
      exact hpart (hsuf.subset (by simp [hc]))

theorem foldl_parse_cleanMap (parts : List Str) (hparts : ∀ l ∈ parts, ',' ∉ l) (acc : GoMap)
    (hacc : CleanMap acc) :
    CleanMap (parts.foldl
      (fun result part =>
        match SplitN2 part '=' with
        | [k, v] => mapSet result (TrimSpace k) (TrimSpace v)
        | _ => result) acc) := by
  induction parts generalizing acc with
  | nil => simpa using hacc
  | cons part parts ih =>
    simp only [List.foldl_cons]
    apply ih (fun l hl => hparts l (by simp [hl]))
    split
    · rename_i k v hkv
      have := splitN2_clean part (hparts part (by simp)) k v hkv
      exact cleanMap_mapSet acc _ _ hacc this.1 this.2
    · exact hacc

/-- Whatever the line, `parseConfigLine` returns a map whose keys are distinct and whose
keys and values the codec carries unchanged. -/
theorem cleanMap_parseConfigLine (line : Str) : CleanMap (parseConfigLine line) :=
  foldl_parse_cleanMap _ (split_not_mem line ',') [] cleanMap_nil


/-! ## C1: codec round trip -/

/-- C1 (as stated, refuted): the record `domain ↦ "a.test "` has a value free of `,`
and `=`, yet decoding its encoded line yields `domain ↦ "a.test"`: `parseConfigLine`
trims the value, so the decoded record is not the record that was encoded. -/
theorem codec_round_trip_padded_value_fails :
    (∀ e ∈ paddedRecord, ',' ∉ e.2 ∧ '=' ∉ e.2) ∧
    (mapKeys paddedRecord).Nodup ∧
    serializeConfig id paddedRecord = "domain=a.test ".toList ∧
    mapLookup (parseConfigLine (serializeConfig id paddedRecord)) "domain".toList
      = some "a.test".toList ∧
    mapLookup paddedRecord "domain".toList = some "a.test ".toList ∧
    ¬ MapEq (parseConfigLine (serializeConfig id paddedRecord)) paddedRecord := by
  refine ⟨by decide, by decide, by decide, by decide, by decide, fun h => ?_⟩
  have h1 := h "domain".toList
  revert h1
  decide

/-- C1 (amended): for every record with distinct keys whose keys and values have no
leading or trailing white space, whose keys contain neither `,` nor `=` and whose
values contain no `,`, and for every order `ord` in which the fields are emitted,
decoding the encoded line with `parseConfigLine` yields exactly the record: the same
entries (a permutation of the entry list), hence the same value at every key. -/
theorem codec_round_trip (ord : GoMap → GoMap) (r : GoMap) (hord : (ord r).Perm r)
    (hkeys : (mapKeys r).Nodup)
    (hclean : ∀ e ∈ r, TrimSpace e.1 = e.1 ∧ ',' ∉ e.1 ∧ '=' ∉ e.1 ∧
      TrimSpace e.2 = e.2 ∧ ',' ∉ e.2) :
    (parseConfigLine (serializeConfig ord r)).Perm r ∧
    MapEq (parseConfigLine (serializeConfig ord r)) r := by
  have hr : CleanMap r :=
    ⟨hkeys, fun e he => ⟨⟨(hclean e he).1, (hclean e he).2.1, (hclean e he).2.2.1⟩,
      ⟨(hclean e he).2.2.2.1, (hclean e he).2.2.2.2⟩⟩⟩
  have heq := serialize_round_trip ord r hord hr
  rw [heq]
  exact ⟨hord, mapEq_of_perm _ _ hkeys hord⟩

/-- C1 (witness): the amended round trip at a three-field record emitted in reverse
order. -/
theorem codec_round_trip_witness :
    (List.reverse sampleRecord).Perm sampleRecord ∧
    (mapKeys sampleRecord).Nodup ∧
    (parseConfigLine (serializeConfig List.reverse sampleRecord)).Perm sampleRecord ∧
    MapEq (parseConfigLine (serializeConfig List.reverse sampleRecord)) sampleRecord :=
  ⟨List.reverse_perm _, by decide,
    codec_round_trip List.reverse sampleRecord (List.reverse_perm _) (by decide) (by decide)⟩


/-! ## Lemmas on joined lines -/

theorem join_nil (sep : Str) : Join [] sep = [] := rfl

theorem join_singleton (a sep : Str) : Join [a] sep = a := by
  simp [Join, List.intercalate]

theorem join_cons_cons (a b : Str) (t : List Str) (sep : Str) :
    Join (a :: b :: t) sep = a ++ sep ++ Join (b :: t) sep := by
  simp [Join, List.intercalate]

theorem solid_append (a m b : Str) (ha : Solid a) (hb : Solid b) : Solid (a ++ m ++ b) := by
  obtain ⟨hane, ha1, _⟩ := ha
  obtain ⟨hbne, _, hb2⟩ := hb
  refine ⟨by simp [hane], ?_, ?_⟩
  · intro c hc
    cases a with
    | nil => exact absurd rfl hane
    | cons x a =>
      simp only [List.cons_append, List.head?_cons, Option.some.injEq] at hc
      exact ha1 c (by simp [hc])
  · intro c hc
    rw [List.getLast?_append_of_ne_nil _ hbne] at hc
    exact hb2 c hc

theorem solid_join (parts : List Str) (sep : Str) (hne : parts ≠ [])
    (h : ∀ p ∈ parts, Solid p) : Solid (Join parts sep) := by
  induction parts with
  | nil => exact absurd rfl hne
  | cons a t ih =>
    cases t with
    | nil => rw [join_singleton]; exact h a (by simp)
    | cons b t =>
      rw [join_cons_cons]
      exact solid_append a sep _ (h a (by simp))
        (ih (by simp) (fun p hp => h p (by simp [hp])))

theorem not_mem_join (c : Char) (parts : List Str) (sep : Str) (hsep : c ∉ sep)
    (h : ∀ p ∈ parts, c ∉ p) : c ∉ Join parts sep := by
  induction parts with
  | nil => simp [join_nil]
  | cons a t ih =>
    cases t with
    | nil => rw [join_singleton]; exact h a (by simp)
    | cons b t =>
      rw [join_cons_cons]
      simp only [List.mem_append, not_or]
      exact ⟨⟨h a (by simp), hsep⟩, ih (fun p hp => h p (by simp [hp]))⟩

theorem trimSpace_of_solid (s : Str) (h : Solid s) : TrimSpace s = s :=
  trimSpace_of_trimmed s h.2

theorem solid_kvPart (e : Str × Str) (hk : TrimSpace e.1 = e.1) (hv : TrimSpace e.2 = e.2) :
    Solid (kvPart e) := by
  obtain ⟨k, v⟩ := e
  have hkt := trimmed_of_trimSpace_eq k hk
  have hvt := trimmed_of_trimSpace_eq v hv
  refine ⟨by simp [kvPart], ?_, ?_⟩
  · intro c hc
    cases k with
    | nil =>
      simp only [kvPart, List.nil_append, List.head?_cons, Option.some.injEq] at hc
      subst hc; decide
    | cons x k =>
      simp only [kvPart, List.cons_append, List.head?_cons, Option.some.injEq] at hc
      exact hkt.1 c (by simp [hc])
  · intro c hc
    cases v with
    | nil =>
      have : kvPart (k, []) = k ++ ['='] := rfl
      rw [this, List.getLast?_concat] at hc
      simp only [Option.some.injEq] at hc
      subst hc; decide
    | cons x v =>
      have : kvPart (k, x :: v) = (k ++ ['=']) ++ (x :: v) := by simp [kvPart]
      rw [this, List.getLast?_append_of_ne_nil _ (by simp)] at hc
      exact hvt.2 c hc

/-- The serialised line of a record that is not empty and whose keys and values are
trimmed is not empty and neither starts nor ends with white space. -/
theorem solid_serialize (es : GoMap) (hne : es ≠ [])
    (h : ∀ e ∈ es, TrimSpace e.1 = e.1 ∧ TrimSpace e.2 = e.2) :
    Solid (Join (es.map kvPart) [',']) := by
  apply solid_join
  · simpa using hne
  · intro p hp
    simp only [List.mem_map] at hp
    obtain ⟨e, he, rfl⟩ := hp
    exact solid_kvPart e (h e he).1 (h e he).2

theorem not_mem_kvPart (c : Char) (hc : c ≠ '=') (e : Str × Str) (h1 : c ∉ e.1) (h2 : c ∉ e.2) :
    c ∉ kvPart e := by
  simp only [kvPart, List.mem_append, List.mem_cons, not_or]
  exact ⟨h1, hc, h2⟩

/-- Loading a joined list of lines gives the lines back when every line is non-empty,
has no newline and neither starts nor ends with white space. -/
theorem loadConfigurations_indexContent (lines : List Str)
    (h : ∀ l ∈ lines, Solid l ∧ '\n' ∉ l) :
    loadConfigurations (indexContent lines) = lines := by
  by_cases hne : lines = []
  · subst hne; decide
  · have hsolid : Solid (Join lines ['\n']) := solid_join lines _ hne (fun l hl => (h l hl).1)
    have hsplit : Split (Join lines ['\n']) '\n' = lines := by
      unfold Split Join
      exact List.splitOn_intercalate _ '\n' (fun l hl => (h l hl).2) hne
    unfold loadConfigurations indexContent
    rw [trimSpace_of_solid _ hsolid, hsplit]
    have hnot : ¬ (lines.length = 0 ∨ (lines.length = 1 ∧ lines.head? = some [])) := by
      rintro (h0 | ⟨_, h1⟩)
      · exact hne (List.length_eq_zero.mp h0)
      · cases lines with
        | nil => exact hne rfl
        | cons a t =>
          simp only [List.head?_cons, Option.some.injEq] at h1
          exact (h a (by simp)).1.1 h1
    simp only [hnot, if_false]
    rw [List.filter_eq_self]
    intro l hl
    have := (h l hl).1
    rw [trimSpace_of_solid l this]
    cases l with
    | nil => exact absurd rfl this.1
    | cons x l => rfl


/-! ## C2: index round trip -/

/-- C2 (as stated, refuted): the one-record sequence `domain ↦ "a.test,b.test"`,
`port ↦ "80"` (a domain reply with a comma, which edit stores as typed) is written as
the line `domain=a.test,b.test,port=80` and loads back as `domain ↦ "a.test"`,
`port ↦ "80"`: the loaded record is not the record that was written. -/
theorem index_round_trip_comma_value_fails :
    saveRecords id [commaRecord] = "domain=a.test,b.test,port=80".toList ∧
    loadRecords (saveRecords id [commaRecord])
      = [[("domain".toList, "a.test".toList), ("port".toList, "80".toList)]] ∧
    loadRecords (saveRecords id [commaRecord]) ≠ [commaRecord] ∧
    ¬ List.Forall₂ MapEq (loadRecords (saveRecords id [commaRecord])) [commaRecord] := by
  refine ⟨by decide, by decide, by decide, fun h => ?_⟩
  have h0 : loadRecords (saveRecords id [commaRecord])
      = [[("domain".toList, "a.test".toList), ("port".toList, "80".toList)]] := by decide
  rw [h0] at h
  simp only [List.forall₂_cons, List.Forall₂.nil, and_true] at h
  have h1 := h "domain".toList
  revert h1
  decide

/-- C2 (amended): for every sequence of records that are not empty, have distinct keys,
and whose keys and values have no leading or trailing white space and contain no `,`
and no newline (keys no `=` either), and for every order `ord` in which fields are
emitted, writing the index as the encoded lines joined with a newline and loading it
back as `manageConfigurations` does yields the same number of records, and the same
records in the same order. -/
theorem index_round_trip (ord : GoMap → GoMap) (rs : List GoMap)
    (hord : ∀ r ∈ rs, (ord r).Perm r)
    (hrs : ∀ r ∈ rs, r ≠ [] ∧ (mapKeys r).Nodup ∧
      ∀ e ∈ r, TrimSpace e.1 = e.1 ∧ ',' ∉ e.1 ∧ '=' ∉ e.1 ∧ '\n' ∉ e.1 ∧
        TrimSpace e.2 = e.2 ∧ ',' ∉ e.2 ∧ '\n' ∉ e.2) :
    (loadRecords (saveRecords ord rs)).length = rs.length ∧
    List.Forall₂ (fun loaded r => loaded.Perm r ∧ MapEq loaded r)
      (loadRecords (saveRecords ord rs)) rs := by
  have hlines : ∀ l ∈ rs.map (serializeConfig ord), Solid l ∧ '\n' ∉ l := by
    intro l hl
    simp only [List.mem_map] at hl
    obtain ⟨r, hr, rfl⟩ := hl
    obtain ⟨hne, _, hc⟩ := hrs r hr
    have hp := hord r hr
    have hone : ord r ≠ [] := fun h0 => hne (by rw [h0] at hp; exact hp.symm.eq_nil)
    constructor
    · exact solid_serialize (ord r) hone
        (fun e he => ⟨(hc e (hp.mem_iff.mp he)).1, (hc e (hp.mem_iff.mp he)).2.2.2.2.1⟩)
    · unfold serializeConfig
      apply not_mem_join _ _ _ (by decide)
      intro p hp'
      simp only [List.mem_map] at hp'
      obtain ⟨e, he, rfl⟩ := hp'
      have := hc e (hp.mem_iff.mp he)
      exact not_mem_kvPart '\n' (by decide) e this.2.2.2.1 this.2.2.2.2.2.2
  have hload : loadRecords (saveRecords ord rs) = rs.map ord := by
    unfold loadRecords saveRecords
    rw [loadConfigurations_indexContent _ hlines, List.map_map]
    apply List.map_congr_left
    intro r hr
    obtain ⟨_, hk, hc⟩ := hrs r hr
    exact serialize_round_trip ord r (hord r hr)
      ⟨hk, fun e he => ⟨⟨(hc e he).1, (hc e he).2.1, (hc e he).2.2.1⟩,
        ⟨(hc e he).2.2.2.2.1, (hc e he).2.2.2.2.2.1⟩⟩⟩
  rw [hload]
  refine ⟨by simp, ?_⟩
  rw [List.forall₂_map_left_iff]
  apply List.forall₂_same.mpr
  intro r hr
  exact ⟨hord r hr, mapEq_of_perm _ _ (hrs r hr).2.1 (hord r hr)⟩

/-- C2 (witness): the amended round trip at a sequence of two records emitted in
reverse field order. -/
theorem index_round_trip_witness :
    (∀ r ∈ [sampleRecord, [("domain".toList, "x.test".toList)]], (List.reverse r).Perm r) ∧
    (loadRecords (saveRecords List.reverse
        [sampleRecord, [("domain".toList, "x.test".toList)]])).length = 2 ∧
    List.Forall₂ (fun loaded r => loaded.Perm r ∧ MapEq loaded r)
      (loadRecords (saveRecords List.reverse
        [sampleRecord, [("domain".toList, "x.test".toList)]]))
      [sampleRecord, [("domain".toList, "x.test".toList)]] :=
  ⟨fun r _ => List.reverse_perm r,
    index_round_trip List.reverse [sampleRecord, [("domain".toList, "x.test".toList)]]
      (fun r _ => List.reverse_perm r) (by decide)⟩


/-! ## C3: append after rewrite -/

set_option maxRecDepth 1000000 in
/-- C3 (the code at the failing input): the index holds what a full rewrite wrote for
the one record of `a.test` (the line, no final newline).  A create run for `b.test`
appends its entry line to that file.  The entry starts on the last line of the file:
the index then holds one line, loading it yields one record and not two, and that
record is neither the record of `a.test` nor the record of `b.test`. -/
theorem append_after_rewrite_merges_last_line :
    loadConfigurations (indexContent [lineA]) = [lineA] ∧
    (deployProxyConfig okEnv repliesB fsAfterRewrite).map
        (fun o => (o.validate, o.reload, o.fs srvIndex))
      = some (some true, some true, some (Node.file mergedIndex)) ∧
    mergedIndex = indexContent [lineA] ++
      configEntry "b.test".toList "4000".toList "127.0.0.1".toList "127.0.0.1".toList
        "/etc/nginx/sites-available/b.test".toList 1700000000001 ∧
    (loadRecords mergedIndex).length = 1 ∧
    loadRecords mergedIndex =
      [[("domain".toList, "a.test".toList), ("port".toList, "4000".toList),
        ("host".toList, "127.0.0.1".toList), ("type".toList, "proxy".toList),
        ("ip".toList, "127.0.0.1".toList),
        ("path".toList, "/etc/nginx/sites-available/b.test".toList),
        ("status".toList, "active".toList), ("created".toList, "1700000000001".toList)]] := by
  refine ⟨by decide, by decide, by decide, by decide, by decide⟩


/-! ## Lemmas on create -/

theorem split_ne_nil (s : Str) (sep : Char) : Split s sep ≠ [] :=
  List.splitOnP_ne_nil _ _

theorem configIndexPath_isSome (content : Str) : (configIndexPath content).isSome = true := by
  unfold configIndexPath
  cases h : Split content '\n' with
  | nil => exact absurd h (split_ne_nil _ _)
  | cons a t => rfl

theorem fields_ne_nil_of_head (c : Char) (s : Str) (hc : isSpace c = false) :
    Fields (c :: s) ≠ [] := by
  unfold Fields
  rw [List.splitOnP_cons]
  simp only [hc, Bool.false_eq_true, if_false]
  cases hs : List.splitOnP isSpace s with
  | nil => exact absurd hs (List.splitOnP_ne_nil _ _)
  | cons a t => simp [List.modifyHead, List.filter_cons]

/-- A trimmed reply that is not empty has a first field: `domains[0]` is in range. -/
theorem fields_getUserInput_ne_nil (reply : Str) (h : getUserInput reply ≠ []) :
    Fields (getUserInput reply) ≠ [] := by
  have ht := trimmed_trimSpace reply
  unfold getUserInput at h ⊢
  cases hs : TrimSpace reply with
  | nil => exact absurd hs h
  | cons c s =>
    rw [hs] at ht
    exact fields_ne_nil_of_head c s (ht.1 c rfl)

theorem siteAvailablePath_ne_nil (primary : Str) : siteAvailablePath primary ≠ [] := by
  unfold siteAvailablePath filepathJoin
  simp only [List.dropWhile_cons]
  have h1 : ("/etc/nginx/sites-available".toList).isEmpty = false := by decide
  simp only [h1, Bool.false_eq_true, if_false]
  unfold filepathClean
  have h2 : Join ["/etc/nginx/sites-available".toList, primary] ['/'] =
      '/' :: ("etc/nginx/sites-available".toList ++ '/' :: primary) := by
    simp [Join, List.intercalate]
  rw [h2]
  simp

theorem fsSet_same (fs : FS) (p : Str) (n : Option Node) : fsSet fs p n p = n := by
  simp [fsSet]

theorem fsSet_other (fs : FS) (p q : Str) (n : Option Node) (h : q ≠ p) :
    fsSet fs p n q = fs q := by
  simp [fsSet, h]

/-- A walk that succeeds looks only at links and directories before its last step: it
gives the same result in a file system that holds the same links and directories,
provided the entry reached has not become a link (when the last link is followed). -/
theorem walkTo_stable (fs fs' : FS) (fl : Bool)
    (H : ∀ x, (∃ t, fs x = some (Node.link t)) ∨ fs x = some Node.dir → fs' x = fs x) :
    ∀ (rest cur : List Str),
      (∀ cs, walkTo fs fl cur rest = Walk.reached cs →
        (fl = true → ∀ t, fs' (entryName cs) = some (Node.link t) →
          ∃ u, fs (entryName cs) = some (Node.link u)) →
        walkTo fs' fl cur rest = Walk.reached cs) ∧
      (∀ a b, walkTo fs fl cur rest = Walk.jump a b →
        walkTo fs' fl cur rest = Walk.jump a b) := by
  intro rest
  induction rest with
  | nil =>
    intro cur
    refine ⟨fun cs h _ => ?_, fun a b h => ?_⟩
    · simpa [walkTo] using h
    · simp [walkTo] at h
  | cons c rest ih =>
    intro cur
    by_cases hdot : c = ".".toList
    · have e1 : ∀ g : FS, walkTo g fl cur (c :: rest) = walkTo g fl cur rest := by
        intro g; simp only [walkTo, hdot, if_true]
      rw [e1 fs, e1 fs']
      exact ih cur
    by_cases hdd : c = "..".toList
    · have e1 : ∀ g : FS, walkTo g fl cur (c :: rest) = walkTo g fl cur.dropLast rest := by
        intro g
        have hne : ¬ ("..".toList : Str) = ".".toList := by decide
        simp only [walkTo, hdd, hne, if_true, if_false]
      rw [e1 fs, e1 fs']
      exact ih cur.dropLast
    have e1 : ∀ g : FS, walkTo g fl cur (c :: rest) =
        match g (entryName (cur ++ [c])) with
        | some (Node.link target) =>
          if rest.isEmpty && !fl then Walk.reached (cur ++ [c])
          else if target.isEmpty then Walk.fail true
          else Walk.jump (if isRooted target then [] else cur) (pathParts target ++ rest)
        | some Node.dir => walkTo g fl (cur ++ [c]) rest
        | some (Node.file _) =>
          if rest.isEmpty then Walk.reached (cur ++ [c]) else Walk.fail false
        | none => if rest.isEmpty then Walk.reached (cur ++ [c]) else Walk.fail true := by
      intro g; simp only [walkTo, hdot, hdd, if_false]
    rw [e1 fs, e1 fs']
    -- the last step on an entry that holds no link and no directory in `fs`
    have last : ∀ cs, (∀ t, fs (entryName (cur ++ [c])) ≠ some (Node.link t)) →
        rest.isEmpty = true → cs = cur ++ [c] →
        (fl = true → ∀ t, fs' (entryName cs) = some (Node.link t) →
          ∃ u, fs (entryName cs) = some (Node.link u)) →
        (match fs' (entryName (cur ++ [c])) with
        | some (Node.link target) =>
          if rest.isEmpty && !fl then Walk.reached (cur ++ [c])
          else if target.isEmpty then Walk.fail true
          else Walk.jump (if isRooted target then [] else cur) (pathParts target ++ rest)
        | some Node.dir => walkTo fs' fl (cur ++ [c]) rest
        | some (Node.file _) =>
          if rest.isEmpty then Walk.reached (cur ++ [c]) else Walk.fail false
        | none => if rest.isEmpty then Walk.reached (cur ++ [c]) else Walk.fail true)
          = Walk.reached cs := by
      intro cs hnl hre hcs hfin
      subst hcs
      have hr : rest = [] := List.isEmpty_iff.mp hre
      cases hg : fs' (entryName (cur ++ [c])) with
      | none => simp [hre]
      | some n =>
        cases n with
        | file _ => simp [hre]
        | dir => simp [hr, walkTo]
        | link t =>
          cases hfl : fl with
          | false => simp [hre]
          | true =>
            obtain ⟨u, hu⟩ := hfin hfl t hg
            exact absurd hu (hnl u)
    cases hf : fs (entryName (cur ++ [c])) with
    | none =>
      refine ⟨fun cs h hfin => ?_, fun a b h => ?_⟩
      · simp only at h
        split at h
        · rename_i hre
          exact last cs (by intro t; rw [hf]; exact fun h => nomatch h) hre
            (by injection h with h; exact h.symm) hfin
        · cases h
      · simp only at h
        split at h <;> cases h
    | some n =>
      cases n with
      | file content =>
        refine ⟨fun cs h hfin => ?_, fun a b h => ?_⟩
        · simp only at h
          split at h
          · rename_i hre
            exact last cs (by intro t; rw [hf]; exact fun h => nomatch h) hre
              (by injection h with h; exact h.symm) hfin
          · cases h
        · simp only at h
          split at h <;> cases h
      | dir =>
        have hg : fs' (entryName (cur ++ [c])) = some Node.dir := by
          rw [H _ (Or.inr hf), hf]
        rw [hg]
        exact ih (cur ++ [c])
      | link t =>
        have hg : fs' (entryName (cur ++ [c])) = some (Node.link t) := by
          rw [H _ (Or.inl ⟨t, hf⟩), hf]
        rw [hg]
        exact ⟨fun cs h _ => h, fun a b h => h⟩

theorem resolveFrom_stable (fs fs' : FS) (fl : Bool)
    (H : ∀ x, (∃ t, fs x = some (Node.link t)) ∨ fs x = some Node.dir → fs' x = fs x)
    (cs : List Str)
    (hfin : fl = true → ∀ t, fs' (entryName cs) = some (Node.link t) →
      ∃ u, fs (entryName cs) = some (Node.link u)) :
    ∀ (n : Nat) (cur rest : List Str),
      resolveFrom fs fl n cur rest = Walk.reached cs →
      resolveFrom fs' fl n cur rest = Walk.reached cs := by
  intro n
  induction n with
  | zero => intro cur rest h; simp [resolveFrom] at h
  | succ n ih =>
    intro cur rest h
    unfold resolveFrom at h ⊢
    cases hw : walkTo fs fl cur rest with
    | reached cs₁ =>
      rw [hw] at h
      simp only at h
      rw [h] at hw
      rw [(walkTo_stable fs fs' fl H rest cur).1 cs hw hfin]
    | jump a b =>
      rw [hw] at h
      simp only at h
      rw [(walkTo_stable fs fs' fl H rest cur).2 a b hw]
      exact ih a b h
    | fail e =>
      rw [hw] at h
      cases h

theorem fileAt_eq_some (env : Env) (fs : FS) (p q : Str) :
    fileAt env fs p = some q ↔
      ∃ cs, resolve env fs true p = Walk.reached cs ∧ entryName cs = q := by
  unfold fileAt
  cases h : resolve env fs true p with
  | reached cs => simp
  | jump a b => simp
  | fail e => simp

theorem entryAt_eq_some (env : Env) (fs : FS) (p q : Str) :
    entryAt env fs p = some q ↔
      ∃ cs, resolve env fs false p = Walk.reached cs ∧ entryName cs = q := by
  unfold entryAt
  cases h : resolve env fs false p with
  | reached cs => simp
  | jump a b => simp
  | fail e => simp

theorem resolve_stable (env : Env) (fs fs' : FS) (fl : Bool) (p : Str) (cs : List Str)
    (H : ∀ x, (∃ t, fs x = some (Node.link t)) ∨ fs x = some Node.dir → fs' x = fs x)
    (hfin : fl = true → ∀ t, fs' (entryName cs) = some (Node.link t) →
      ∃ u, fs (entryName cs) = some (Node.link u))
    (h : resolve env fs fl p = Walk.reached cs) :
    resolve env fs' fl p = Walk.reached cs := by
  unfold resolve at h ⊢
  split at h
  · cases h
  · rename_i hp
    rw [if_neg hp]
    exact resolveFrom_stable fs fs' fl H cs hfin _ _ _ h

/-- The file a path denotes is the same in a file system that holds the same links and
directories, when the file reached has not become a link. -/
theorem fileAt_stable (env : Env) (fs fs' : FS) (p q : Str)
    (H : ∀ x, (∃ t, fs x = some (Node.link t)) ∨ fs x = some Node.dir → fs' x = fs x)
    (hfin : ∀ t, fs' q = some (Node.link t) → ∃ u, fs q = some (Node.link u))
    (h : fileAt env fs p = some q) : fileAt env fs' p = some q := by
  obtain ⟨cs, hr, hq⟩ := (fileAt_eq_some env fs p q).mp h
  subst hq
  exact (fileAt_eq_some env fs' p _).mpr
    ⟨cs, resolve_stable env fs fs' true p cs H (fun _ => hfin) hr, rfl⟩

/-- The entry a path names is the same in a file system that holds the same links and
directories. -/
theorem entryAt_stable (env : Env) (fs fs' : FS) (p q : Str)
    (H : ∀ x, (∃ t, fs x = some (Node.link t)) ∨ fs x = some Node.dir → fs' x = fs x)
    (h : entryAt env fs p = some q) : entryAt env fs' p = some q := by
  obtain ⟨cs, hr, hq⟩ := (entryAt_eq_some env fs p q).mp h
  subst hq
  exact (entryAt_eq_some env fs' p _).mpr
    ⟨cs, resolve_stable env fs fs' false p cs H (fun h => nomatch h) hr, rfl⟩

/-- A walk to an entry that holds no link does not depend on whether a link at the last
component is followed. -/
theorem walkTo_follow (fs : FS) :
    ∀ (rest cur : List Str),
      (∀ cs, walkTo fs false cur rest = Walk.reached cs →
        (∀ t, fs (entryName cs) ≠ some (Node.link t)) →
        walkTo fs true cur rest = Walk.reached cs) ∧
      (∀ a b, walkTo fs false cur rest = Walk.jump a b →
        walkTo fs true cur rest = Walk.jump a b) := by
  intro rest
  induction rest with
  | nil =>
    intro cur
    refine ⟨fun cs h _ => ?_, fun a b h => ?_⟩
    · simpa [walkTo] using h
    · simp [walkTo] at h
  | cons c rest ih =>
    intro cur
    by_cases hdot : c = ".".toList
    · have e1 : ∀ fl, walkTo fs fl cur (c :: rest) = walkTo fs fl cur rest := by
        intro fl; simp only [walkTo, hdot, if_true]
      rw [e1 false, e1 true]
      exact ih cur
    by_cases hdd : c = "..".toList
    · have e1 : ∀ fl, walkTo fs fl cur (c :: rest) = walkTo fs fl cur.dropLast rest := by
        intro fl
        have hne : ¬ ("..".toList : Str) = ".".toList := by decide
        simp only [walkTo, hdd, hne, if_true, if_false]
      rw [e1 false, e1 true]
      exact ih cur.dropLast
    have e1 : ∀ fl, walkTo fs fl cur (c :: rest) =
        match fs (entryName (cur ++ [c])) with
        | some (Node.link target) =>
          if rest.isEmpty && !fl then Walk.reached (cur ++ [c])
          else if target.isEmpty then Walk.fail true
          else Walk.jump (if isRooted target then [] else cur) (pathParts target ++ rest)
        | some Node.dir => walkTo fs fl (cur ++ [c]) rest
        | some (Node.file _) =>
          if rest.isEmpty then Walk.reached (cur ++ [c]) else Walk.fail false
        | none => if rest.isEmpty then Walk.reached (cur ++ [c]) else Walk.fail true := by
      intro fl; simp only [walkTo, hdot, hdd, if_false]
    rw [e1 false, e1 true]
    cases hf : fs (entryName (cur ++ [c])) with
    | none => exact ⟨fun cs h _ => h, fun a b h => h⟩
    | some n =>
      cases n with
      | file content => exact ⟨fun cs h _ => h, fun a b h => h⟩
      | dir => exact ih (cur ++ [c])
      | link t =>
        simp only [Bool.not_false, Bool.and_true, Bool.not_true, Bool.and_false,
          Bool.false_eq_true, if_false]
        refine ⟨fun cs h hnl => ?_, fun a b h => ?_⟩
        · split at h
          · injection h with h
            subst h
            exact absurd hf (hnl t)
          · exact h
        · split at h
          · cases h
          · exact h

theorem resolveFrom_follow (fs : FS) (cs : List Str)
    (hnl : ∀ t, fs (entryName cs) ≠ some (Node.link t)) :
    ∀ (n : Nat) (cur rest : List Str),
      resolveFrom fs false n cur rest = Walk.reached cs →
      resolveFrom fs true n cur rest = Walk.reached cs := by
  intro n
  induction n with
  | zero => intro cur rest h; simp [resolveFrom] at h
  | succ n ih =>
    intro cur rest h
    unfold resolveFrom at h ⊢
    cases hw : walkTo fs false cur rest with
    | reached cs₁ =>
      rw [hw] at h
      simp only at h
      rw [h] at hw
      rw [(walkTo_follow fs rest cur).1 cs hw hnl]
    | jump a b =>
      rw [hw] at h
      simp only at h
      rw [(walkTo_follow fs rest cur).2 a b hw]
      exact ih a b h
    | fail e =>
      rw [hw] at h
      cases h

theorem resolve_follow (env : Env) (fs : FS) (p : Str) (cs : List Str)
    (hnl : ∀ t, fs (entryName cs) ≠ some (Node.link t))
    (h : resolve env fs false p = Walk.reached cs) :
    resolve env fs true p = Walk.reached cs := by
  unfold resolve at h ⊢
  split at h
  · cases h
  · rename_i hp
    rw [if_neg hp]
    exact resolveFrom_follow fs cs hnl _ _ _ h

/-- The symlink step of create leaves the file system as it is, or puts the link at the
entry of the symlink path, which held nothing. -/
theorem deployLink_cases (env : Env) (fs : FS) (a e : Str) :
    deployLink env fs a e = fs ∨
      ∃ q, entryAt env fs e = some q ∧ fs q = none ∧
        deployLink env fs a e = fsSet fs q (some (Node.link a)) := by
  unfold deployLink
  split
  · unfold symlink
    cases he : entryAt env fs e with
    | none => exact Or.inl rfl
    | some q =>
      simp only
      split
      · rename_i hc
        simp only [Bool.and_eq_true, Option.isNone_iff_eq_none] at hc
        exact Or.inr ⟨q, rfl, hc.1.1, rfl⟩
      · exact Or.inl rfl
  · exact Or.inl rfl

/-- The symlink step of create makes the link when the entry of the symlink path holds
nothing and `os.Symlink` succeeds. -/
theorem deployLink_made (env : Env) (fs : FS) (a e q : Str)
    (he : entryAt env fs e = some q) (hq : fs q = none) (ha : a ≠ [])
    (hs : env.symlinkOk e = true) :
    deployLink env fs a e = fsSet fs q (some (Node.link a)) := by
  obtain ⟨cs, hr, hcs⟩ := (entryAt_eq_some env fs e q).mp he
  subst hcs
  have hr' := resolve_follow env fs e cs (by intro t; rw [hq]; exact fun h => nomatch h) hr
  have hne : a.isEmpty = false := by
    cases a with
    | nil => exact absurd rfl ha
    | cons c t => rfl
  unfold deployLink statNotExist symlink
  rw [hr', he]
  simp [hq, hne, hs]

/-- What `os.WriteFile` does when it succeeds. -/
theorem writeFile_eq_some (env : Env) (fs fs₁ : FS) (p c : Str)
    (h : writeFile env fs p c = some fs₁) :
    ∃ q, fileAt env fs p = some q ∧ env.writeOk p = true ∧
      (∀ t, fs q ≠ some (Node.link t)) ∧ fs q ≠ some Node.dir ∧
      fs₁ = fsSet fs q (some (Node.file c)) := by
  unfold writeFile at h
  split at h
  · rename_i hw
    cases hq : fileAt env fs p with
    | none => rw [hq] at h; cases h
    | some q =>
      rw [hq] at h
      simp only at h
      cases hn : fs q with
      | none =>
        rw [hn] at h
        simp only [Option.some.injEq] at h
        refine ⟨q, rfl, hw, ?_, ?_, h.symm⟩
        · intro t; rw [hn]; exact fun h => nomatch h
        · rw [hn]; exact fun h => nomatch h
      | some n =>
        rw [hn] at h
        cases n with
        | file content =>
          simp only [Option.some.injEq] at h
          refine ⟨q, rfl, hw, ?_, ?_, h.symm⟩
          · intro t; rw [hn]; exact fun h => nomatch h
          · rw [hn]; exact fun h => nomatch h
        | link t => cases h
        | dir => cases h
  · cases h

theorem writeFile_of_fileAt (env : Env) (fs : FS) (p c q : Str)
    (hw : env.writeOk p = true) (hq : fileAt env fs p = some q)
    (hn : fs q = none ∨ ∃ old, fs q = some (Node.file old)) :
    writeFile env fs p c = some (fsSet fs q (some (Node.file c))) := by
  unfold writeFile
  rw [if_pos hw, hq]
  rcases hn with hn | ⟨old, hn⟩ <;> simp [hn]

theorem siteEnabledPath_ne_nil (name : Str) : siteEnabledPath name ≠ [] := by
  unfold siteEnabledPath filepathJoin
  simp only [List.dropWhile_cons]
  have h1 : ("/etc/nginx/sites-enabled".toList).isEmpty = false := by decide
  simp only [h1, Bool.false_eq_true, if_false]
  unfold filepathClean
  have h2 : Join ["/etc/nginx/sites-enabled".toList, name] ['/'] =
      '/' :: ("etc/nginx/sites-enabled".toList ++ '/' :: name) := by
    simp [Join, List.intercalate]
  rw [h2]
  simp

/-- Writing a regular file leaves every link and every directory as it was. -/
theorem fsSet_file_keeps (fs : FS) (w c : Str)
    (hnl : ∀ t, fs w ≠ some (Node.link t)) (hnd : fs w ≠ some Node.dir) :
    ∀ x, (∃ t, fs x = some (Node.link t)) ∨ fs x = some Node.dir →
      fsSet fs w (some (Node.file c)) x = fs x := by
  intro x hx
  apply fsSet_other
  rintro rfl
  rcases hx with ⟨t, ht⟩ | hd
  · exact hnl t ht
  · exact hnd hd

/-- The state after the write and the symlink step of create: the config path still
denotes the file written, which holds the content; links and directories are as they
were, and so is every entry other than the file written and the entry of the symlink
path. -/
theorem deployLink_after_write (env : Env) (fs : FS) (a e w c : Str)
    (hw : fileAt env fs a = some w)
    (hnl : ∀ t, fs w ≠ some (Node.link t)) (hnd : fs w ≠ some Node.dir) :
    fileAt env (deployLink env (fsSet fs w (some (Node.file c))) a e) a = some w ∧
    deployLink env (fsSet fs w (some (Node.file c))) a e w = some (Node.file c) ∧
    (∀ x, (∃ t, fs x = some (Node.link t)) ∨ fs x = some Node.dir →
      deployLink env (fsSet fs w (some (Node.file c))) a e x = fs x) ∧
    (∀ x, x ≠ w → entryAt env fs e ≠ some x →
      deployLink env (fsSet fs w (some (Node.file c))) a e x = fs x) := by
  have H1 := fsSet_file_keeps fs w c hnl hnd
  have H2 : ∀ x, (∃ t, fsSet fs w (some (Node.file c)) x = some (Node.link t)) ∨
      fsSet fs w (some (Node.file c)) x = some Node.dir →
      fs x = fsSet fs w (some (Node.file c)) x := by
    intro x hx
    by_cases hxw : x = w
    · subst hxw
      rw [fsSet_same] at hx
      rcases hx with ⟨t, ht⟩ | hd
      · cases ht
      · cases hd
    · rw [fsSet_other _ _ _ _ hxw]
  have hkeep : ∀ x, deployLink env (fsSet fs w (some (Node.file c))) a e x ≠
      fsSet fs w (some (Node.file c)) x →
      fsSet fs w (some (Node.file c)) x = none ∧ entryAt env fs e = some x := by
    intro x hx
    rcases deployLink_cases env (fsSet fs w (some (Node.file c))) a e with h | ⟨q, hq, hn, h⟩
    · rw [h] at hx
      exact absurd rfl hx
    · rw [h] at hx
      by_cases hxq : x = q
      · subst hxq
        exact ⟨hn, entryAt_stable env _ fs e x H2 hq⟩
      · rw [fsSet_other _ _ _ _ hxq] at hx
        exact absurd rfl hx
  have hW : deployLink env (fsSet fs w (some (Node.file c))) a e w = some (Node.file c) := by
    by_contra hne
    have := (hkeep w (by rw [fsSet_same]; exact hne)).1
    rw [fsSet_same] at this
    cases this
  have H3 : ∀ x, (∃ t, fs x = some (Node.link t)) ∨ fs x = some Node.dir →
      deployLink env (fsSet fs w (some (Node.file c))) a e x = fs x := by
    intro x hx
    by_contra hne
    have h1 := H1 x hx
    have := (hkeep x (by rw [h1]; exact hne)).1
    rw [h1] at this
    rcases hx with ⟨t, ht⟩ | hd
    · rw [this] at ht; cases ht
    · rw [this] at hd; cases hd
  refine ⟨?_, hW, H3, ?_⟩
  · apply fileAt_stable env fs _ a w H3 _ hw
    intro t ht
    rw [hW] at ht
    cases ht
  · intro x hxw hxe
    by_contra hne
    have h1 : fsSet fs w (some (Node.file c)) x = fs x := fsSet_other _ _ _ _ hxw
    exact hxe (hkeep x (by rw [h1]; exact hne)).2

/-- The entry of the symlink path after the write and the symlink step of create. -/
theorem deployLink_entry (env : Env) (fs : FS) (a e w c : Str) (ha : a ≠ [])
    (hnl : ∀ t, fs w ≠ some (Node.link t)) (hnd : fs w ≠ some Node.dir)
    (entry : Str) (he : entryAt env fs e = some entry) :
    ((fs entry).isSome = true ∨ env.symlinkOk e = true →
      (deployLink env (fsSet fs w (some (Node.file c))) a e entry).isSome = true) ∧
    (fs entry = none → entry ≠ w → env.symlinkOk e = true →
      deployLink env (fsSet fs w (some (Node.file c))) a e entry = some (Node.link a)) := by
  have he₁ := entryAt_stable env fs (fsSet fs w (some (Node.file c))) e entry
    (fsSet_file_keeps fs w c hnl hnd) he
  cases hfe : fsSet fs w (some (Node.file c)) entry with
  | none =>
    have hne : entry ≠ w := by
      rintro rfl
      rw [fsSet_same] at hfe
      cases hfe
    have hfs : fs entry = none := by
      rw [← fsSet_other fs w entry _ hne]; exact hfe
    have made : env.symlinkOk e = true →
        deployLink env (fsSet fs w (some (Node.file c))) a e entry = some (Node.link a) := by
      intro hs
      rw [deployLink_made env _ a e entry he₁ hfe ha hs, fsSet_same]
    refine ⟨fun hor => ?_, fun _ _ hs => made hs⟩
    rcases hor with h1 | h1
    · rw [hfs] at h1; cases h1
    · rw [made h1]; rfl
  | some node =>
    have hsame : deployLink env (fsSet fs w (some (Node.file c))) a e entry = some node := by
      rcases deployLink_cases env (fsSet fs w (some (Node.file c))) a e with h | ⟨q, hq, hn, _⟩
      · rw [h, hfe]
      · rw [he₁] at hq
        injection hq with hq
        subst hq
        rw [hfe] at hn
        cases hn
    refine ⟨fun _ => ?_, fun hfs hne _ => ?_⟩
    · rw [hsame]; rfl
    · rw [fsSet_other fs w entry _ hne, hfs] at hfe
      cases hfe

/-- A file other than the file written and the entry of the symlink path is reached
and read after the write and the symlink step of create as before. -/
theorem deployLink_frame (env : Env) (fs : FS) (a e w c : Str)
    (hw : fileAt env fs a = some w)
    (hnl : ∀ t, fs w ≠ some (Node.link t)) (hnd : fs w ≠ some Node.dir)
    (p index : Str) (hi : fileAt env fs p = some index) (hiw : index ≠ w)
    (hie : entryAt env fs e ≠ some index) :
    fileAt env (deployLink env (fsSet fs w (some (Node.file c))) a e) p = some index ∧
    deployLink env (fsSet fs w (some (Node.file c))) a e index = fs index ∧
    readFile env (deployLink env (fsSet fs w (some (Node.file c))) a e) p
      = readFile env fs p := by
  obtain ⟨_, _, hK, hO⟩ := deployLink_after_write env fs a e w c hw hnl hnd
  have hsame := hO index hiw hie
  have hi' := fileAt_stable env fs _ p index hK
    (by intro t ht; rw [hsame] at ht; exact ⟨t, ht⟩) hi
  refine ⟨hi', hsame, ?_⟩
  unfold readFile
  rw [hi', hi]
  dsimp only
  rw [hsame]

theorem readFile_of_fileAt (env : Env) (fs : FS) (p q c : Str)
    (hq : fileAt env fs p = some q) (hc : fs q = some (Node.file c))
    (hr : env.readOk p = true) : readFile env fs p = some c := by
  unfold readFile
  rw [hq]
  simp [hc, hr]

/-- The run of create up to a failing validate, as an equation. -/
theorem deploy_validate_failure_run (env : Env) (r : DeployReplies) (fs : FS)
    (content configIndex primary written : Str) (rest : List Str) (n : Int)
    (h1 : readFile env fs CONFIG_FILE = some content)
    (h2 : configIndexPath content = some configIndex)
    (h3 : EqualFold (getUserInput r.serviceType) "proxy".toList = true)
    (h4 : (getUserInput r.domain).isEmpty = false)
    (h5 : Fields (getUserInput r.domain) = primary :: rest)
    (h6 : (getUserInput r.port).isEmpty = false)
    (h7 : Atoi (getUserInput r.port) = some n)
    (h8 : env.writeOk (siteAvailablePath primary) = true)
    (h9 : env.validateOk = false)
    (hw : fileAt env fs (siteAvailablePath primary) = some written)
    (hn : fs written = none ∨ ∃ old, fs written = some (Node.file old)) :
    deployProxyConfig env r fs =
      some ⟨deployLink env
          (fsSet fs written (some (Node.file (deployConfigText env r))))
          (siteAvailablePath primary) (siteEnabledPath primary), some false, none⟩ := by
  unfold deployProxyConfig
  rw [h1]
  simp only
  rw [h2]
  simp only [h3, h4, h5, h6, h7, writeFile_of_fileAt env fs _ _ written h8 hw hn, h9]
  rfl

theorem deployConfigText_head (env : Env) (r : DeployReplies) :
    (deployConfigText env r).head? = some '#' := rfl

/-- A create run whose config path denotes the file that an index path denotes too,
and in which validate fails: the index path then reads as the rendered config. -/
theorem deploy_overwrites_alias (env : Env) (r : DeployReplies) (fs : FS)
    (content configIndex primary written old : Str) (rest : List Str) (n : Int)
    (h1 : readFile env fs CONFIG_FILE = some content)
    (h2 : configIndexPath content = some configIndex)
    (h3 : EqualFold (getUserInput r.serviceType) "proxy".toList = true)
    (h4 : (getUserInput r.domain).isEmpty = false)
    (h5 : Fields (getUserInput r.domain) = primary :: rest)
    (h6 : (getUserInput r.port).isEmpty = false)
    (h7 : Atoi (getUserInput r.port) = some n)
    (h8 : env.writeOk (siteAvailablePath primary) = true)
    (h9 : env.validateOk = false)
    (hw : fileAt env fs (siteAvailablePath primary) = some written)
    (hi : fileAt env fs configIndex = some written)
    (hn : fs written = some (Node.file old))
    (hr : env.readOk configIndex = true) :
    ∃ o, deployProxyConfig env r fs = some o ∧ o.validate = some false ∧
      readFile env o.fs configIndex = some (deployConfigText env r) := by
  have hnl : ∀ t, fs written ≠ some (Node.link t) := by
    intro t; rw [hn]; exact fun h => nomatch h
  have hnd : fs written ≠ some Node.dir := by
    rw [hn]; exact fun h => nomatch h
  obtain ⟨_, hW, hK, _⟩ := deployLink_after_write env fs (siteAvailablePath primary)
    (siteEnabledPath primary) written (deployConfigText env r) hw hnl hnd
  have hi' := fileAt_stable env fs _ configIndex written hK
    (by intro t ht; rw [hW] at ht; cases ht) hi
  refine ⟨⟨deployLink env (fsSet fs written (some (Node.file (deployConfigText env r))))
    (siteAvailablePath primary) (siteEnabledPath primary), some false, none⟩, ?_, rfl, ?_⟩
  · exact deploy_validate_failure_run env r fs content configIndex primary written rest n
      h1 h2 h3 h4 h5 h6 h7 h8 h9 hw (Or.inr ⟨old, hn⟩)
  · dsimp only
    exact readFile_of_fileAt env _ configIndex written _ hi' hW hr

/-! ## C5: create input validation -/

/-- C5: for every create run whose port reply is empty or rejected by `strconv.Atoi`,
whatever the other replies, the environment and the file system, the run returns (it
does not panic) with the file system it started from, and without calling validate or
reload: no config file is written, no symlink is created, the hosts file is not
touched and the index is unchanged. -/
theorem create_invalid_port_no_effect (env : Env) (r : DeployReplies) (fs : FS)
    (hport : getUserInput r.port = [] ∨ Atoi (getUserInput r.port) = none) :
    deployProxyConfig env r fs = some ⟨fs, none, none⟩ := by
  unfold deployProxyConfig
  cases hcfg : readFile env fs CONFIG_FILE with
  | none => rfl
  | some content =>
    simp only
    cases hidx : configIndexPath content with
    | none =>
      have := configIndexPath_isSome content
      rw [hidx] at this
      cases this
    | some configIndex =>
      simp only
      split
      · rfl
      · split
        · rfl
        · rename_i hdom
          have hne : getUserInput r.domain ≠ [] := by
            intro h0
            rw [h0] at hdom
            exact hdom rfl
          cases hf : Fields (getUserInput r.domain) with
          | nil => exact absurd hf (fields_getUserInput_ne_nil _ hne)
          | cons primary rest =>
            simp only
            rcases hport with hp | hp
            · simp [hp]
            · rw [hp]
              split <;> rfl

/-- C5 (witness): a create run for `b.test` whose port reply is `80a`. -/
theorem create_invalid_port_no_effect_witness :
    (getUserInput "80a".toList = [] ∨ Atoi (getUserInput "80a".toList) = none) ∧
    deployProxyConfig okEnv ⟨"proxy".toList, "b.test".toList, "80a".toList, [], "y".toList, []⟩
      fsAfterRewrite = some ⟨fsAfterRewrite, none, none⟩ :=
  ⟨Or.inr (by decide),
    create_invalid_port_no_effect okEnv
      ⟨"proxy".toList, "b.test".toList, "80a".toList, [], "y".toList, []⟩ fsAfterRewrite
      (Or.inr (by decide))⟩


/-! ## C4: create with a validate failure -/

/-- C4 (as stated, refuted): a create run with a non-empty domain and a numeric port in
which validate reports failure, and after which the index file does not hold what it
held before.  The domain `../../../srv/nginx_data/config_index` passes create's input
checks; `filepath.Join("/etc/nginx/sites-available", domain)` is then the index path
`/srv/nginx_data/config_index`, and create writes the rendered config there before
validate runs: the index held the line of `a.test` and holds the rendered config
afterwards. -/
theorem create_validate_failure_index_overwritten :
    siteAvailablePath "../../../srv/nginx_data/config_index".toList = srvIndex ∧
    readFile badConfigEnv fsAfterRewrite srvIndex = some lineA ∧
    (∃ o, deployProxyConfig badConfigEnv repliesClimb fsAfterRewrite = some o ∧
      o.validate = some false ∧
      readFile badConfigEnv o.fs srvIndex = some (deployConfigText badConfigEnv repliesClimb) ∧
      readFile badConfigEnv o.fs srvIndex ≠ readFile badConfigEnv fsAfterRewrite srvIndex) := by
  have hA : siteAvailablePath "../../../srv/nginx_data/config_index".toList = srvIndex := by
    decide
  have hE : siteEnabledPath "../../../srv/nginx_data/config_index".toList = srvIndex := by
    decide
  have hold : readFile badConfigEnv fsAfterRewrite srvIndex = some lineA := by decide
  have hat : fileAt badConfigEnv fsAfterRewrite srvIndex = some srvIndex := by decide
  have hnode : fsAfterRewrite srvIndex = some (Node.file (indexContent [lineA])) := by decide
  have hrun := deploy_validate_failure_run badConfigEnv repliesClimb fsAfterRewrite
    "/srv\n".toList srvIndex "../../../srv/nginx_data/config_index".toList srvIndex [] 80
    (by decide) (by decide) (by decide) (by decide) (by decide) (by decide) (by decide)
    (by decide) (by decide) (by rw [hA]; exact hat) (Or.inr ⟨_, hnode⟩)
  rw [hA, hE] at hrun
  have hafter := deployLink_after_write badConfigEnv fsAfterRewrite srvIndex srvIndex srvIndex
    (deployConfigText badConfigEnv repliesClimb) hat
    (by intro t; rw [hnode]; exact fun h => nomatch h)
    (by rw [hnode]; exact fun h => nomatch h)
  have hnew := readFile_of_fileAt badConfigEnv _ srvIndex srvIndex _ hafter.1 hafter.2.1 rfl
  refine ⟨hA, hold, _, hrun, rfl, hnew, ?_⟩
  rw [hnew, hold]
  intro h
  have h1 := congrArg (fun o => o.bind List.head?) h
  simp only [Option.some_bind, deployConfigText_head] at h1
  revert h1
  decide

/-- C4 (amended): for every create run in which validate reports failure, the run
stops there (reload is not called) and nothing it wrote is undone.  The config path
`/etc/nginx/sites-available/<primary domain>` denotes, before and after the run, the
same file (reached through the working directory and the symbolic links on the way),
and that file holds the rendered config.  The entry of the enable-symlink path holds
something whenever it did before the run or the symlink call succeeds, and holds the
link to the config path when the entry was free, is not the file written, and the call
succeeds.  The index path denotes the same file as before, with the same content,
provided that file is neither the file written nor the entry of the enable-symlink
path. -/
theorem create_validate_failure (env : Env) (r : DeployReplies) (fs : FS) (o : Outcome)
    (hrun : deployProxyConfig env r fs = some o) (hval : o.validate = some false) :
    ∃ primary rest content configIndex written,
      Fields (getUserInput r.domain) = primary :: rest ∧
      readFile env fs CONFIG_FILE = some content ∧
      configIndexPath content = some configIndex ∧
      o.reload = none ∧
      fileAt env fs (siteAvailablePath primary) = some written ∧
      fileAt env o.fs (siteAvailablePath primary) = some written ∧
      o.fs written = some (Node.file (deployConfigText env r)) ∧
      (env.readOk (siteAvailablePath primary) = true →
        readFile env o.fs (siteAvailablePath primary) = some (deployConfigText env r)) ∧
      (∀ entry, entryAt env fs (siteEnabledPath primary) = some entry →
        ((fs entry).isSome = true ∨ env.symlinkOk (siteEnabledPath primary) = true →
          (o.fs entry).isSome = true) ∧
        (fs entry = none → entry ≠ written →
          env.symlinkOk (siteEnabledPath primary) = true →
          o.fs entry = some (Node.link (siteAvailablePath primary)))) ∧
      (∀ index, fileAt env fs configIndex = some index → index ≠ written →
        entryAt env fs (siteEnabledPath primary) ≠ some index →
        fileAt env o.fs configIndex = some index ∧ o.fs index = fs index ∧
        readFile env o.fs configIndex = readFile env fs configIndex) := by
  unfold deployProxyConfig at hrun
  cases hcfg : readFile env fs CONFIG_FILE with
  | none =>
    rw [hcfg] at hrun
    simp only [Option.some.injEq] at hrun
    subst hrun
    cases hval
  | some content =>
    rw [hcfg] at hrun
    simp only at hrun
    cases hidx : configIndexPath content with
    | none => rw [hidx] at hrun; cases hrun
    | some configIndex =>
      rw [hidx] at hrun
      simp only at hrun
      split at hrun
      · simp only [Option.some.injEq] at hrun; subst hrun; cases hval
      · split at hrun
        · simp only [Option.some.injEq] at hrun; subst hrun; cases hval
        · cases hf : Fields (getUserInput r.domain) with
          | nil => rw [hf] at hrun; cases hrun
          | cons primary rest =>
            rw [hf] at hrun
            simp only at hrun
            split at hrun
            · simp only [Option.some.injEq] at hrun; subst hrun; cases hval
            · cases hatoi : Atoi (getUserInput r.port) with
              | none =>
                rw [hatoi] at hrun
                simp only [Option.some.injEq] at hrun; subst hrun; cases hval
              | some n =>
                rw [hatoi] at hrun
                simp only at hrun
                cases hw : writeFile env fs (siteAvailablePath primary)
                    (deployConfigText env r) with
                | none =>
                  rw [hw] at hrun
                  simp only [Option.some.injEq] at hrun; subst hrun; cases hval
                | some fs₁ =>
                  rw [hw] at hrun
                  simp only at hrun
                  obtain ⟨written, hat, _, hnl, hnd, hfs₁⟩ := writeFile_eq_some env fs fs₁ _ _ hw
                  subst hfs₁
                  split at hrun
                  · simp only [Option.some.injEq] at hrun
                    subst hrun
                    obtain ⟨hA, hW, _, _⟩ := deployLink_after_write env fs
                      (siteAvailablePath primary) (siteEnabledPath primary) written
                      (deployConfigText env r) hat hnl hnd
                    dsimp only
                    refine ⟨primary, rest, content, configIndex, written, ?_, ?_, hidx, ?_,
                      hat, ?_, ?_, ?_, ?_, ?_⟩
                    · rfl
                    · rfl
                    · rfl
                    · exact hA
                    · exact hW
                    · exact fun hr => readFile_of_fileAt env _ _ written _ hA hW hr
                    · exact fun entry he => deployLink_entry env fs (siteAvailablePath primary)
                        (siteEnabledPath primary) written (deployConfigText env r)
                        (siteAvailablePath_ne_nil primary) hnl hnd entry he
                    · exact fun index hi hiw hie => deployLink_frame env fs
                        (siteAvailablePath primary) (siteEnabledPath primary) written
                        (deployConfigText env r) hat hnl hnd configIndex index hi hiw hie
                  · split at hrun
                    · simp only [Option.some.injEq] at hrun; subst hrun; cases hval
                    · simp only [Option.some.injEq] at hrun; subst hrun; cases hval

/-- C4 (witness): a create run for `b.test` on port 4000 in which validate fails. -/
theorem create_validate_failure_witness :
    deployProxyConfig badConfigEnv repliesB fsAfterRewrite = some outcomeB ∧
    outcomeB.validate = some false ∧
    ∃ primary rest content configIndex written,
      Fields (getUserInput repliesB.domain) = primary :: rest ∧
      readFile badConfigEnv fsAfterRewrite CONFIG_FILE = some content ∧
      configIndexPath content = some configIndex ∧
      outcomeB.reload = none ∧
      fileAt badConfigEnv fsAfterRewrite (siteAvailablePath primary) = some written ∧
      fileAt badConfigEnv outcomeB.fs (siteAvailablePath primary) = some written ∧
      outcomeB.fs written = some (Node.file (deployConfigText badConfigEnv repliesB)) ∧
      (badConfigEnv.readOk (siteAvailablePath primary) = true →
        readFile badConfigEnv outcomeB.fs (siteAvailablePath primary)
          = some (deployConfigText badConfigEnv repliesB)) ∧
      (∀ entry, entryAt badConfigEnv fsAfterRewrite (siteEnabledPath primary) = some entry →
        ((fsAfterRewrite entry).isSome = true ∨
            badConfigEnv.symlinkOk (siteEnabledPath primary) = true →
          (outcomeB.fs entry).isSome = true) ∧
        (fsAfterRewrite entry = none → entry ≠ written →
          badConfigEnv.symlinkOk (siteEnabledPath primary) = true →
          outcomeB.fs entry = some (Node.link (siteAvailablePath primary)))) ∧
      (∀ index, fileAt badConfigEnv fsAfterRewrite configIndex = some index →
        index ≠ written →
        entryAt badConfigEnv fsAfterRewrite (siteEnabledPath primary) ≠ some index →
        fileAt badConfigEnv outcomeB.fs configIndex = some index ∧
        outcomeB.fs index = fsAfterRewrite index ∧
        readFile badConfigEnv outcomeB.fs configIndex
          = readFile badConfigEnv fsAfterRewrite configIndex) :=
  ⟨deploy_validate_failure_run badConfigEnv repliesB fsAfterRewrite "/srv\n".toList srvIndex
      "b.test".toList (siteAvailablePath "b.test".toList) [] 4000 (by decide) (by decide)
      (by decide) (by decide) (by decide) (by decide) (by decide) (by decide) (by decide)
      (by decide) (Or.inl (by decide)),
    rfl,
    create_validate_failure badConfigEnv repliesB fsAfterRewrite outcomeB
      (deploy_validate_failure_run badConfigEnv repliesB fsAfterRewrite "/srv\n".toList srvIndex
        "b.test".toList (siteAvailablePath "b.test".toList) [] 4000 (by decide) (by decide)
        (by decide) (by decide) (by decide) (by decide) (by decide) (by decide) (by decide)
        (by decide) (Or.inl (by decide))) rfl⟩

set_option maxRecDepth 1000000 in
/-- The condition on the index file in the amended claim is about the file and not
about the text of its path.  In each of three runs in which validate fails the config
path and the index path differ as texts and denote one file, and the index path reads
as the rendered config afterwards: the base path `.` with the working directory
`/srv` and a domain that climbs to `/srv/nginx_data/config_index`; a symbolic link to
the index file at the config path of `x.test`; and the directory
`/etc/nginx/sites-available` as a symbolic link to the data directory, with the
domain `config_index`. -/
theorem create_overwrites_index_through_alias :
    (configIndexPath ".\n".toList = some "nginx_data/config_index".toList ∧
      fileAt srvEnv fsRelative "nginx_data/config_index".toList = some srvIndex ∧
      fileAt srvEnv fsRelative
        (siteAvailablePath "../../../srv/nginx_data/config_index".toList) = some srvIndex ∧
      ∃ o, deployProxyConfig srvEnv repliesClimb fsRelative = some o ∧
        o.validate = some false ∧
        readFile srvEnv o.fs "nginx_data/config_index".toList
          = some (deployConfigText srvEnv repliesClimb)) ∧
    (siteAvailablePath "x.test".toList ≠ srvIndex ∧
      fileAt badConfigEnv fsLinkedFile (siteAvailablePath "x.test".toList) = some srvIndex ∧
      ∃ o, deployProxyConfig badConfigEnv repliesX fsLinkedFile = some o ∧
        o.validate = some false ∧
        readFile badConfigEnv o.fs srvIndex = some (deployConfigText badConfigEnv repliesX)) ∧
    (siteAvailablePath "config_index".toList ≠ srvIndex ∧
      fileAt badConfigEnv fsLinkedDir (siteAvailablePath "config_index".toList)
        = some srvIndex ∧
      ∃ o, deployProxyConfig badConfigEnv repliesIndexName fsLinkedDir = some o ∧
        o.validate = some false ∧
        readFile badConfigEnv o.fs srvIndex
          = some (deployConfigText badConfigEnv repliesIndexName)) := by
  refine ⟨⟨by decide, by decide, by decide, ?_⟩, ⟨by decide, by decide, ?_⟩,
    ⟨by decide, by decide, ?_⟩⟩
  · exact deploy_overwrites_alias srvEnv repliesClimb fsRelative ".\n".toList
      "nginx_data/config_index".toList "../../../srv/nginx_data/config_index".toList srvIndex
      (indexContent [lineA]) [] 80 (by decide) (by decide) (by decide) (by decide) (by decide)
      (by decide) (by decide) (by decide) (by decide) (by decide) (by decide) (by decide)
      (by decide)
  · exact deploy_overwrites_alias badConfigEnv repliesX fsLinkedFile "/srv\n".toList
      srvIndex "x.test".toList srvIndex (indexContent [lineA]) [] 80 (by decide) (by decide)
      (by decide) (by decide) (by decide) (by decide) (by decide) (by decide) (by decide)
      (by decide) (by decide) (by decide) (by decide)
  · exact deploy_overwrites_alias badConfigEnv repliesIndexName fsLinkedDir "/srv\n".toList
      srvIndex "config_index".toList srvIndex (indexContent [lineA]) [] 80 (by decide)
      (by decide) (by decide) (by decide) (by decide) (by decide) (by decide) (by decide)
      (by decide) (by decide) (by decide) (by decide) (by decide)

/-! ## Path lemmas -/

theorem splitOnP_append_sep (p : Char → Bool) (a b : Str) (sep : Char) (hsep : p sep = true) :
    (a ++ sep :: b).splitOnP p = a.splitOnP p ++ b.splitOnP p := by
  induction a with
  | nil => simp [hsep]
  | cons x a ih =>
    simp only [List.cons_append, List.splitOnP_cons, ih]
    by_cases hx : p x = true
    · simp [hx]
    · simp only [hx, Bool.false_eq_true, if_false]
      cases hs : List.splitOnP p a with
      | nil => exact absurd hs (List.splitOnP_ne_nil _ _)
      | cons h t => simp [List.modifyHead]

theorem split_append_name (d n : Str) (hn : '/' ∉ n) :
    Split (d ++ '/' :: n) '/' = Split d '/' ++ [n] := by
  unfold Split List.splitOn
  rw [splitOnP_append_sep _ _ _ _ (by simp)]
  congr 1
  apply List.splitOnP_eq_single
  intro x hx h
  simp only [beq_iff_eq] at h
  exact hn (h ▸ hx)

theorem split_name (n : Str) (hn : '/' ∉ n) : Split n '/' = [n] := by
  unfold Split List.splitOn
  apply List.splitOnP_eq_single
  intro x hx h
  simp only [beq_iff_eq] at h
  exact hn (h ▸ hx)

theorem cleanStep_plain (rooted : Bool) (out : List Str) (n : Str) (hn : PlainName n) :
    cleanStep rooted out n = n :: out := by
  unfold cleanStep
  obtain ⟨h1, _, h3, h4⟩ := hn
  simp [h1, h3, h4]

theorem join_concat (xs : List Str) (n sep : Str) :
    Join (xs ++ [n]) sep = if xs = [] then n else Join xs sep ++ sep ++ n := by
  induction xs with
  | nil => simp [join_singleton]
  | cons a t ih =>
    cases t with
    | nil => simp [join_cons_cons, join_singleton]
    | cons b t =>
      simp only [List.cons_append, join_cons_cons] at ih ⊢
      rw [ih]
      simp

/-- Cleaning a path that ends in `/name`, for a plain name, gives a path that ends in
the name, after nothing or after a slash. -/
theorem clean_stack_name (st : List Str) (n : Str) :
    ∃ pre : Str, (pre = [] ∨ ∃ y, pre = y ++ ['/']) ∧
      Join (n :: st).reverse ['/'] = pre ++ n := by
  rw [List.reverse_cons, join_concat]
  by_cases h : st.reverse = []
  · exact ⟨[], Or.inl rfl, by simp [h]⟩
  · exact ⟨Join st.reverse ['/'] ++ ['/'], Or.inr ⟨_, rfl⟩, by simp [h]⟩

theorem clean_ends_with_name (path n : Str) (hn : PlainName n)
    (hsplit : ∃ xs, Split path '/' = xs ++ [n]) (hne : path ≠ []) :
    ∃ pre : Str, (pre = [] ∨ ∃ y, pre = y ++ ['/']) ∧ filepathClean path = pre ++ n := by
  obtain ⟨xs, hxs⟩ := hsplit
  unfold filepathClean
  simp only [hne, if_false, hxs, List.foldl_append, List.foldl_cons, List.foldl_nil]
  rw [cleanStep_plain _ _ _ hn]
  obtain ⟨pre, hpre, hj⟩ := clean_stack_name
    (List.foldl (cleanStep (path.head? == some '/')) [] xs) n
  rw [hj]
  by_cases hr : (path.head? == some '/') = true
  · simp only [hr, if_true]
    refine ⟨'/' :: pre, ?_, by simp⟩
    rcases hpre with rfl | ⟨y, rfl⟩
    · exact Or.inr ⟨[], rfl⟩
    · exact Or.inr ⟨'/' :: y, rfl⟩
  · have hbody : pre ++ n ≠ [] := by simp [hn.1]
    simp only [hr, Bool.false_eq_true, if_false, hbody]
    exact ⟨pre, hpre, rfl⟩

theorem base_ends_with_name (pre n : Str) (hn : PlainName n)
    (hpre : pre = [] ∨ ∃ y, pre = y ++ ['/']) : filepathBase (pre ++ n) = n := by
  obtain ⟨h1, h2, _, _⟩ := hn
  have hlast : ∀ hl : pre ++ n ≠ [], ¬ ((fun c => c == '/') ((pre ++ n).getLast hl)) = true := by
    intro hl
    rw [List.getLast_append_of_ne_nil h1]
    simp only [beq_iff_eq]
    intro h
    exact h2 (h ▸ List.getLast_mem h1)
  have hdrop : (pre ++ n).rdropWhile (fun c => c == '/') = pre ++ n :=
    List.rdropWhile_eq_self_iff.mpr hlast
  have hall : ∀ c ∈ n.reverse, (c != '/') = true := by
    intro c hc
    simp only [bne_iff_ne, ne_eq]
    rintro rfl
    exact h2 (List.mem_reverse.mp hc)
  have htake : (pre ++ n).rtakeWhile (fun c => c != '/') = n := by
    unfold List.rtakeWhile
    rw [List.reverse_append, List.takeWhile_append_of_pos hall]
    rcases hpre with rfl | ⟨y, rfl⟩
    · simp
    · simp [List.takeWhile_cons]
  unfold filepathBase
  simp [hdrop, htake, h1]

/-- The invariant of a rename: the file name of `filepath.Join(dir, name)` is the name,
for every directory and every plain name. -/
theorem base_join_name (dir n : Str) (hn : PlainName n) :
    filepathBase (filepathJoin [dir, n]) = n := by
  have hnne : n.isEmpty = false := by
    cases n with
    | nil => exact absurd rfl hn.1
    | cons _ _ => rfl
  unfold filepathJoin
  by_cases hd : dir.isEmpty = true
  · have : List.dropWhile (fun e : Str => e.isEmpty) [dir, n] = [n] := by
      simp [List.dropWhile_cons, hd, hnne]
    rw [this]
    simp only [join_singleton]
    obtain ⟨pre, hpre, hc⟩ := clean_ends_with_name n n hn ⟨[], by simp [split_name n hn.2.1]⟩ hn.1
    rw [hc]
    exact base_ends_with_name pre n hn hpre
  · have : List.dropWhile (fun e : Str => e.isEmpty) [dir, n] = [dir, n] := by
      simp [List.dropWhile_cons, hd]
    rw [this]
    have hj : Join [dir, n] ['/'] = dir ++ '/' :: n := by
      simp [join_cons_cons, join_singleton]
    simp only [hj]
    obtain ⟨pre, hpre, hc⟩ := clean_ends_with_name (dir ++ '/' :: n) n hn
      ⟨_, split_append_name dir n hn.2.1⟩ (by simp)
    rw [hc]
    exact base_ends_with_name pre n hn hpre


/-! ## Lemmas on edit -/

theorem mapGet_mapSet (m : GoMap) (k v k' : Str) :
    mapGet (mapSet m k v) k' = if k' = k then v else mapGet m k' := by
  unfold mapGet
  rw [mapLookup_mapSet]
  split <;> rfl

theorem fields_of_primaryDomain (domain primary : Str) (h : primaryDomain domain = some primary) :
    ∃ rest, Fields domain = primary :: rest := by
  unfold primaryDomain at h
  cases hf : Fields domain with
  | nil => rw [hf] at h; cases h
  | cons a t =>
    rw [hf] at h
    simp only [List.head?_cons, Option.some.injEq] at h
    exact ⟨t, by rw [h]⟩

theorem fields_mem_ne_nil (s f : Str) (h : f ∈ Fields s) : f ≠ [] := by
  unfold Fields at h
  simp only [List.mem_filter] at h
  intro h0
  rw [h0] at h
  simp at h

/-- The record edit serialises, given the first token of the old and of the new
domain. -/
theorem editPlan_config (config : GoMap) (r : EditReplies) (oldPrimary newPrimary : Str)
    (hold : primaryDomain (mapGet config "domain".toList) = some oldPrimary)
    (hnew : primaryDomain (editNewDomain config r) = some newPrimary) :
    ∃ p, editPlan config r = some p ∧
      mapGet p.config "domain".toList = editNewDomain config r ∧
      (newPrimary ≠ oldPrimary →
        mapGet p.config "path".toList
          = filepathJoin [filepathDir (mapGet config "path".toList), newPrimary]) ∧
      (newPrimary = oldPrimary →
        mapLookup p.config "path".toList = mapLookup config "path".toList) := by
  obtain ⟨orest, ho⟩ := fields_of_primaryDomain _ _ hold
  obtain ⟨nrest, hn⟩ := fields_of_primaryDomain _ _ hnew
  have k1 : "domain".toList ≠ "port".toList := by decide
  have k2 : "domain".toList ≠ "host".toList := by decide
  have k3 : "domain".toList ≠ "ip".toList := by decide
  have k4 : "domain".toList ≠ "path".toList := by decide
  have k5 : "path".toList ≠ "port".toList := by decide
  have k6 : "path".toList ≠ "host".toList := by decide
  have k7 : "path".toList ≠ "ip".toList := by decide
  have k8 : "path".toList ≠ "domain".toList := by decide
  unfold editPlan
  simp only [hn, ho]
  refine ⟨_, rfl, ?_, ?_, ?_⟩
  · simp only [editNewDomain]
    split <;> simp [mapGet_mapSet, k1, k2, k3, k4]
  · intro hne
    have hb : (oldPrimary != newPrimary) = true := by
      simp only [bne_iff_ne, ne_eq]
      exact fun h => hne h.symm
    simp [hb, mapGet_mapSet, k5, k6, k7, k8]
  · intro heq
    have hb : (oldPrimary != newPrimary) = false := by
      simp [heq]
    simp [hb, mapLookup_mapSet, k5, k6, k7, k8]


/-! ## C6: edit with a changed primary domain -/

/-- C6 (as stated, refuted): the record `domain=a.test`,
`path=/etc/nginx/sites-available/a.test` satisfies the invariant (the file name of its
path is its primary domain `a.test`).  With the new domain `b.test/x`, whose first
token differs from `a.test`, edit writes back the path
`/etc/nginx/sites-available/b.test/x`, whose file name is `x` and not the new primary
domain `b.test/x`: the invariant does not hold for the record written back. -/
theorem edit_slash_domain_breaks_invariant :
    primaryDomain (mapGet (parseConfigLine lineShort) "domain".toList) = some "a.test".toList ∧
    filepathBase (mapGet (parseConfigLine lineShort) "path".toList) = "a.test".toList ∧
    primaryDomain (editNewDomain (parseConfigLine lineShort) repliesSlash)
      = some "b.test/x".toList ∧
    (editPlan (parseConfigLine lineShort) repliesSlash).map
        (fun p => (mapGet p.config "domain".toList, mapGet p.config "path".toList))
      = some ("b.test/x".toList, "/etc/nginx/sites-available/b.test/x".toList) ∧
    filepathBase "/etc/nginx/sites-available/b.test/x".toList = "x".toList ∧
    (editPlan (parseConfigLine lineShort) repliesSlash).map
        (fun p => filepathBase (mapGet p.config "path".toList))
      ≠ primaryDomain (editNewDomain (parseConfigLine lineShort) repliesSlash) := by
  refine ⟨by decide, by decide, by decide, by decide, by decide, by decide⟩

/-- C6 (amended): for every index line at the selected position whose domain has a
first token, and every reply whose new domain string has a first token, edit returns
and writes back at that position the serialisation of a record whose domain is the new
domain string.  When the new primary domain differs from the old one, the path of that
record is `filepath.Join(filepath.Dir(old path), new primary domain)`, and when the new
primary domain is a plain file name (no `/`, not `.` or `..`) the file name of that
path is the new primary domain.  When the primary domain is unchanged the path field is
unchanged. -/
theorem edit_path_follows_primary (env : Env) (ord : GoMap → GoMap) (r : EditReplies)
    (configs : List Str) (index : Nat) (configIndex : Str) (fs : FS)
    (line oldPrimary newPrimary : Str)
    (hline : configs[index]? = some line)
    (hold : primaryDomain (mapGet (parseConfigLine line) "domain".toList) = some oldPrimary)
    (hnew : primaryDomain (editNewDomain (parseConfigLine line) r) = some newPrimary) :
    ∃ record o,
      editConfiguration env ord r configs index configIndex fs
        = some (configs.set index (serializeConfig ord record), o) ∧
      mapGet record "domain".toList = editNewDomain (parseConfigLine line) r ∧
      (newPrimary ≠ oldPrimary →
        mapGet record "path".toList
          = filepathJoin [filepathDir (mapGet (parseConfigLine line) "path".toList), newPrimary]
        ∧ ('/' ∉ newPrimary → newPrimary ≠ ['.'] → newPrimary ≠ ['.', '.'] →
            filepathBase (mapGet record "path".toList) = newPrimary)) ∧
      (newPrimary = oldPrimary →
        mapLookup record "path".toList = mapLookup (parseConfigLine line) "path".toList) := by
  obtain ⟨p, hp, hdom, hchg, hsame⟩ :=
    editPlan_config (parseConfigLine line) r oldPrimary newPrimary hold hnew
  unfold editConfiguration
  rw [hline]
  simp only [hp]
  refine ⟨p.config, _, rfl, hdom, ?_, hsame⟩
  · intro hne
    refine ⟨hchg hne, fun h1 h2 h3 => ?_⟩
    rw [hchg hne]
    obtain ⟨rest, hf⟩ := fields_of_primaryDomain _ _ hnew
    have hmem : newPrimary ∈ Fields (editNewDomain (parseConfigLine line) r) := by
      rw [hf]; simp
    exact base_join_name _ _ ⟨fields_mem_ne_nil _ _ hmem, h1, h2, h3⟩

/-- C6 (witness): the record of `a.test` edited to the domain `b.test`. -/
theorem edit_path_follows_primary_witness :
    [lineShort][0]? = some lineShort ∧
    primaryDomain (mapGet (parseConfigLine lineShort) "domain".toList) = some "a.test".toList ∧
    primaryDomain (editNewDomain (parseConfigLine lineShort) repliesRename)
      = some "b.test".toList ∧
    ∃ record o,
      editConfiguration okEnv id repliesRename [lineShort] 0 srvIndex fsAfterRewrite
        = some ([lineShort].set 0 (serializeConfig id record), o) ∧
      mapGet record "domain".toList = editNewDomain (parseConfigLine lineShort) repliesRename ∧
      ("b.test".toList ≠ "a.test".toList →
        mapGet record "path".toList
          = filepathJoin [filepathDir (mapGet (parseConfigLine lineShort) "path".toList),
              "b.test".toList]
        ∧ ('/' ∉ "b.test".toList → "b.test".toList ≠ ['.'] → "b.test".toList ≠ ['.', '.'] →
            filepathBase (mapGet record "path".toList) = "b.test".toList)) ∧
      ("b.test".toList = "a.test".toList →
        mapLookup record "path".toList = mapLookup (parseConfigLine lineShort) "path".toList) :=
  ⟨by decide, by decide, by decide,
    edit_path_follows_primary okEnv id repliesRename [lineShort] 0 srvIndex fsAfterRewrite
      lineShort "a.test".toList "b.test".toList (by decide) (by decide) (by decide)⟩


/-! ## Lemmas on toggle -/

theorem mapEq_refl (m : GoMap) : MapEq m m := fun _ => rfl

theorem mapEq_trans (m₁ m₂ m₃ : GoMap) (h₁ : MapEq m₁ m₂) (h₂ : MapEq m₂ m₃) : MapEq m₁ m₃ :=
  fun k => (h₁ k).trans (h₂ k)

theorem mapEq_mapSet (m₁ m₂ : GoMap) (k v : Str) (h : MapEq m₁ m₂) :
    MapEq (mapSet m₁ k v) (mapSet m₂ k v) := by
  intro k'
  rw [mapLookup_mapSet, mapLookup_mapSet, h k']

theorem mapGet_of_mapEq (m₁ m₂ : GoMap) (h : MapEq m₁ m₂) (k : Str) : mapGet m₁ k = mapGet m₂ k := by
  unfold mapGet
  rw [h k]

theorem cleanKey_status : CleanKey "status".toList := by
  refine ⟨by decide, by decide, by decide⟩

theorem cleanVal_active : CleanVal "active".toList := by
  refine ⟨by decide, by decide⟩

theorem cleanVal_inactive : CleanVal "inactive".toList := by
  refine ⟨by decide, by decide⟩

/-- Decoding the line toggle writes gives the record with the new status, for a record
that was itself decoded from a line. -/
theorem parse_toggleLine (ord : GoMap → GoMap) (hord : ∀ m, (ord m).Perm m) (config : GoMap)
    (hc : CleanMap config) :
    MapEq (parseConfigLine (toggleLine ord config))
      (mapSet config "status".toList (toggleStatus config)) := by
  have hv : CleanVal (toggleStatus config) := by
    unfold toggleStatus
    simp only
    repeat' split
    all_goals first | exact cleanVal_inactive | exact cleanVal_active
  have hm : CleanMap (mapSet config "status".toList (toggleStatus config)) :=
    cleanMap_mapSet _ _ _ hc cleanKey_status hv
  unfold toggleLine
  rw [serialize_round_trip ord _ (hord _) hm]
  exact mapEq_of_perm _ _ hm.1 (hord _)

theorem toggleStatus_of_active (config : GoMap)
    (h : mapGet config "status".toList = "active".toList) :
    toggleStatus config = "inactive".toList := by
  unfold toggleStatus
  rw [h]
  decide

theorem toggleStatus_of_inactive (config : GoMap)
    (h : mapGet config "status".toList = "inactive".toList) :
    toggleStatus config = "active".toList := by
  unfold toggleStatus
  rw [h]
  decide

theorem mapLookup_of_mapGet_ne_nil (m : GoMap) (k v : Str) (h : mapGet m k = v) (hv : v ≠ []) :
    mapLookup m k = some v := by
  unfold mapGet at h
  cases hl : mapLookup m k with
  | none => rw [hl] at h; exact absurd h.symm hv
  | some w => rw [hl] at h; simpa using h

/-- Setting a key to the value it has leaves the map as it is, as a map. -/
theorem mapEq_mapSet_mapSet_self (m : GoMap) (k v w : Str) (h : mapLookup m k = some v) :
    MapEq (mapSet (mapSet m k w) k v) m := by
  intro k'
  rw [mapLookup_mapSet, mapLookup_mapSet]
  by_cases hk : k' = k
  · simp [hk, h]
  · simp [hk]

theorem toggleConfiguration_eq (env : Env) (ord : GoMap → GoMap) (configs : List Str)
    (index : Nat) (config : GoMap) (configIndex : Str) (fs : FS) (h : index < configs.length) :
    ∃ o, toggleConfiguration env ord configs index config configIndex fs
      = some (configs.set index (toggleLine ord config), o) := by
  unfold toggleConfiguration
  simp only [h, if_true]
  exact ⟨_, rfl⟩


/-! ## C7: toggle -/

/-- C7: for every list of index lines, every valid position `i` whose decoded record
has `status=active`, and every order in which the fields are emitted, toggle returns a
list of the same length that is identical at every position other than `i`, and whose
entry at `i` decodes to the same record with `status=inactive` and every other field
unchanged; toggling position `i` of that list a second time (with the record decoded
from its entry, as `manageConfigurations` passes it) returns again a list of the same
length, identical to the first at every other position, whose entry at `i` decodes to
the original record, with `status=active`. -/
theorem toggle_flips_status_in_place (env₁ env₂ : Env) (ord₁ ord₂ : GoMap → GoMap)
    (configs : List Str) (i : Nat) (configIndex : Str) (fs₁ fs₂ : FS) (line : Str)
    (hord₁ : ∀ m, (ord₁ m).Perm m) (hord₂ : ∀ m, (ord₂ m).Perm m)
    (hline : configs[i]? = some line)
    (hactive : mapGet (parseConfigLine line) "status".toList = "active".toList) :
    ∃ c₁ o₁ line₁,
      toggleConfiguration env₁ ord₁ configs i (parseConfigLine line) configIndex fs₁
        = some (c₁, o₁) ∧
      c₁.length = configs.length ∧
      (∀ j, j ≠ i → c₁[j]? = configs[j]?) ∧
      c₁[i]? = some line₁ ∧
      mapLookup (parseConfigLine line₁) "status".toList = some "inactive".toList ∧
      (∀ k, k ≠ "status".toList →
        mapLookup (parseConfigLine line₁) k = mapLookup (parseConfigLine line) k) ∧
      ∃ c₂ o₂ line₂,
        toggleConfiguration env₂ ord₂ c₁ i (parseConfigLine line₁) configIndex fs₂
          = some (c₂, o₂) ∧
        c₂.length = configs.length ∧
        (∀ j, j ≠ i → c₂[j]? = configs[j]?) ∧
        c₂[i]? = some line₂ ∧
        mapLookup (parseConfigLine line₂) "status".toList = some "active".toList ∧
        MapEq (parseConfigLine line₂) (parseConfigLine line) := by
  have hi : i < configs.length := by
    by_contra hge
    rw [List.getElem?_eq_none (Nat.le_of_not_lt hge)] at hline
    cases hline
  have hst := mapLookup_of_mapGet_ne_nil _ _ _ hactive (by decide)
  obtain ⟨o₁, ho₁⟩ := toggleConfiguration_eq env₁ ord₁ configs i (parseConfigLine line)
    configIndex fs₁ hi
  have hp₁ := parse_toggleLine ord₁ hord₁ _ (cleanMap_parseConfigLine line)
  rw [toggleStatus_of_active _ hactive] at hp₁
  have hget₁ : mapGet (parseConfigLine (toggleLine ord₁ (parseConfigLine line)))
      "status".toList = "inactive".toList := by
    rw [mapGet_of_mapEq _ _ hp₁, mapGet_mapSet]
    simp
  have hi₁ : i < (configs.set i (toggleLine ord₁ (parseConfigLine line))).length := by
    simpa using hi
  obtain ⟨o₂, ho₂⟩ := toggleConfiguration_eq env₂ ord₂
    (configs.set i (toggleLine ord₁ (parseConfigLine line))) i
    (parseConfigLine (toggleLine ord₁ (parseConfigLine line))) configIndex fs₂ hi₁
  have hp₂ := parse_toggleLine ord₂ hord₂ _
    (cleanMap_parseConfigLine (toggleLine ord₁ (parseConfigLine line)))
  rw [toggleStatus_of_inactive _ hget₁] at hp₂
  have hback : MapEq
      (parseConfigLine (toggleLine ord₂
        (parseConfigLine (toggleLine ord₁ (parseConfigLine line)))))
      (parseConfigLine line) :=
    mapEq_trans _ _ _ hp₂
      (mapEq_trans _ _ _ (mapEq_mapSet _ _ _ _ hp₁)
        (mapEq_mapSet_mapSet_self _ _ _ _ hst))
  refine ⟨_, o₁, toggleLine ord₁ (parseConfigLine line), ho₁, by simp, ?_, ?_, ?_, ?_,
    _, o₂, toggleLine ord₂ (parseConfigLine (toggleLine ord₁ (parseConfigLine line))),
    ho₂, by simp, ?_, ?_, ?_, hback⟩
  · intro j hj
    rw [List.getElem?_set_ne (fun h => hj h.symm)]
  · rw [List.getElem?_set_self hi]
  · rw [hp₁ _, mapLookup_mapSet, if_pos rfl]
  · intro k hk
    rw [hp₁ k, mapLookup_mapSet, if_neg hk]
  · intro j hj
    rw [List.getElem?_set_ne (fun h => hj h.symm), List.getElem?_set_ne (fun h => hj h.symm)]
  · rw [List.getElem?_set_self hi₁]
  · rw [hback _]
    exact hst

/-- C7 (witness): toggling the second of two index lines twice, with the fields
emitted in reverse order. -/
theorem toggle_flips_status_in_place_witness :
    ["domain=x.test,status=inactive".toList, lineShort][1]? = some lineShort ∧
    mapGet (parseConfigLine lineShort) "status".toList = "active".toList ∧
    ∃ c₁ o₁ line₁,
      toggleConfiguration okEnv List.reverse ["domain=x.test,status=inactive".toList, lineShort]
          1 (parseConfigLine lineShort) srvIndex fsAfterRewrite = some (c₁, o₁) ∧
      c₁.length = ["domain=x.test,status=inactive".toList, lineShort].length ∧
      (∀ j, j ≠ 1 → c₁[j]? = ["domain=x.test,status=inactive".toList, lineShort][j]?) ∧
      c₁[1]? = some line₁ ∧
      mapLookup (parseConfigLine line₁) "status".toList = some "inactive".toList ∧
      (∀ k, k ≠ "status".toList →
        mapLookup (parseConfigLine line₁) k = mapLookup (parseConfigLine lineShort) k) ∧
      ∃ c₂ o₂ line₂,
        toggleConfiguration okEnv List.reverse c₁ 1 (parseConfigLine line₁) srvIndex
            fsAfterRewrite = some (c₂, o₂) ∧
        c₂.length = ["domain=x.test,status=inactive".toList, lineShort].length ∧
        (∀ j, j ≠ 1 → c₂[j]? = ["domain=x.test,status=inactive".toList, lineShort][j]?) ∧
        c₂[1]? = some line₂ ∧
        mapLookup (parseConfigLine line₂) "status".toList = some "active".toList ∧
        MapEq (parseConfigLine line₂) (parseConfigLine lineShort) :=
  ⟨by decide, by decide,
    toggle_flips_status_in_place okEnv okEnv List.reverse List.reverse
      ["domain=x.test,status=inactive".toList, lineShort] 1 srvIndex fsAfterRewrite
      fsAfterRewrite lineShort (fun m => List.reverse_perm m) (fun m => List.reverse_perm m)
      (by decide) (by decide)⟩


/-! ## Lemmas on the hosts file -/

/-- `Contains` decides the contiguous-sublist relation. -/
theorem contains_iff (s sub : Str) : Contains s sub = true ↔ sub <:+: s := by
  unfold Contains
  rw [List.any_eq_true, List.infix_iff_prefix_suffix]
  constructor
  · rintro ⟨t, ht, hp⟩
    exact ⟨t, List.isPrefixOf_iff_prefix.mp hp, (List.mem_tails t s).mp ht⟩
  · rintro ⟨t, hp, ht⟩
    exact ⟨t, (List.mem_tails t s).mpr ht, List.isPrefixOf_iff_prefix.mpr hp⟩

theorem contains_eq_false_iff (s sub : Str) : Contains s sub = false ↔ ¬ sub <:+: s := by
  rw [← contains_iff]
  simp

theorem managedLine_eq (ip domain : Str) : managedLine ip domain = ip ++ deletePattern domain := by
  simp [managedLine, deletePattern]

theorem join_split (content : Str) (sep : Char) : Join (Split content sep) [sep] = content :=
  List.intercalate_splitOn _ sep


/-! ## C8: the hosts clean-up of delete -/

/-- C8 (as stated, refuted): in the hosts file
`127.0.0.1\tlocalhost`, `127.0.0.1\ta.test\t# Added by FastNginx (staging)` no line is
a managed entry `<ip>\ta.test\t# Added by FastNginx` for `a.test` (the second line
carries a note after the marker), yet delete of `a.test` drops the second line: a line
that is not a managed entry is removed, and the hosts content is not left unchanged. -/
theorem delete_drops_annotated_line :
    (Split hostsAnnotated '\n').filter (isManagedEntry "a.test".toList) = [] ∧
    (∀ ip : Str, managedLine ip "a.test".toList
        ≠ "127.0.0.1\ta.test\t# Added by FastNginx (staging)".toList) ∧
    deleteHostsLines "a.test".toList (Split hostsAnnotated '\n')
      = ["127.0.0.1\tlocalhost".toList] ∧
    deleteHostsContent "a.test".toList hostsAnnotated = "127.0.0.1\tlocalhost".toList ∧
    deleteHostsContent "a.test".toList hostsAnnotated ≠ hostsAnnotated := by
  refine ⟨by decide, ?_, by decide, by decide, by decide⟩
  intro ip h
  have h1 : (deletePattern "a.test".toList).isSuffixOf
      "127.0.0.1\ta.test\t# Added by FastNginx (staging)".toList = true := by
    rw [← h, managedLine_eq]
    exact List.isSuffixOf_iff_suffix.mpr (List.suffix_append _ _)
  revert h1
  decide

/-- C8 (amended): for every hosts content and every domain, the lines delete writes
back are the original lines, in their original order, minus exactly those lines that
contain the text `\t<domain>\t# Added by FastNginx`.  Every managed entry
`<ip>\t<domain>\t# Added by FastNginx` for the domain is such a line and is dropped;
every line that does not contain the text is kept as it is, as often as it occurs;
and when no line contains the text the hosts content is unchanged. -/
theorem delete_hosts_cleanup (domain content : Str) :
    deleteHostsLines domain (Split content '\n')
      = (Split content '\n').filter (fun l => decide (¬ deletePattern domain <:+: l)) ∧
    (deleteHostsLines domain (Split content '\n')).Sublist (Split content '\n') ∧
    (∀ ip, managedLine ip domain ∉ deleteHostsLines domain (Split content '\n')) ∧
    (∀ l, ¬ deletePattern domain <:+: l →
      (deleteHostsLines domain (Split content '\n')).count l = (Split content '\n').count l) ∧
    deleteHostsContent domain content
      = Join (deleteHostsLines domain (Split content '\n')) ['\n'] ∧
    ((∀ l ∈ Split content '\n', ¬ deletePattern domain <:+: l) →
      deleteHostsContent domain content = content) := by
  have hfilter : ∀ lines : List Str, deleteHostsLines domain lines
      = lines.filter (fun l => decide (¬ deletePattern domain <:+: l)) := by
    intro lines
    unfold deleteHostsLines
    apply List.filter_congr
    intro l _
    by_cases h : deletePattern domain <:+: l
    · simp [h, (contains_iff l _).mpr h]
    · simp [h, (contains_eq_false_iff l _).mpr h]
  refine ⟨hfilter _, ?_, ?_, ?_, rfl, ?_⟩
  · rw [hfilter]
    exact List.filter_sublist _
  · intro ip hmem
    rw [hfilter, List.mem_filter] at hmem
    have : deletePattern domain <:+: managedLine ip domain := by
      rw [managedLine_eq]
      exact (List.suffix_append _ _).isInfix
    simp [this] at hmem
  · intro l hl
    rw [hfilter, List.count_filter]
    simpa using hl
  · intro hall
    unfold deleteHostsContent
    rw [hfilter, List.filter_eq_self.mpr (by simpa using hall)]
    exact join_split content '\n'

/-- C8 (witness): a hosts file without a line for `a.test` is written back unchanged,
also when a line mentions `a.test` otherwise. -/
theorem delete_hosts_cleanup_witness :
    (∀ l ∈ Split "127.0.0.1\tlocalhost\n10.0.0.1 a.test.local # a.test".toList '\n',
      ¬ deletePattern "a.test".toList <:+: l) ∧
    deleteHostsContent "a.test".toList
        "127.0.0.1\tlocalhost\n10.0.0.1 a.test.local # a.test".toList
      = "127.0.0.1\tlocalhost\n10.0.0.1 a.test.local # a.test".toList :=
  ⟨fun l hl => (contains_eq_false_iff l _).mp
      (List.all_eq_true.mp
        (by decide : (Split "127.0.0.1\tlocalhost\n10.0.0.1 a.test.local # a.test".toList
          '\n').all (fun l => !Contains l (deletePattern "a.test".toList)) = true) l hl
        |> fun h => by simpa using h),
    (delete_hosts_cleanup "a.test".toList
      "127.0.0.1\tlocalhost\n10.0.0.1 a.test.local # a.test".toList).2.2.2.2.2
      (fun l hl => (contains_eq_false_iff l _).mp
        (List.all_eq_true.mp
          (by decide : (Split "127.0.0.1\tlocalhost\n10.0.0.1 a.test.local # a.test".toList
            '\n').all (fun l => !Contains l (deletePattern "a.test".toList)) = true) l hl
          |> fun h => by simpa using h))⟩


/-! ## C9: adding a hosts entry twice -/

set_option maxRecDepth 1000000 in
/-- C9 (the code at the failing input): the hosts file holds `127.0.0.1\tlocalhost`, so
no line mentions `c.test`.  The hosts step of create appends its line without looking
at the file: after two create runs for `c.test` that ask for a hosts entry the file
holds two managed lines for `c.test`, not one; the second add is not skipped.  The
fallback of `updateHostsFile` does look: run twice on the same lines it adds one line
and then none; but when the hosts step of create follows the fallback, the file again
holds two managed lines.  Only when the fallback follows the hosts step of create is
the second add skipped. -/
theorem create_hosts_step_twice_adds_two_lines :
    (Split "127.0.0.1\tlocalhost\n".toList '\n').all
        (fun line => !Contains line "c.test".toList) = true ∧
    createHostsAppend
        (createHostsAppend "127.0.0.1\tlocalhost\n".toList "127.0.0.1".toList "c.test".toList)
        "127.0.0.1".toList "c.test".toList = hostsTwice ∧
    ((deployProxyConfig okEnv repliesHosts fsAfterRewrite).bind
        (fun o₁ => (deployProxyConfig okEnv repliesHosts o₁.fs).map
          (fun o₂ => o₂.fs hostsPath))) = some (some (Node.file hostsTwice)) ∧
    managedCount "c.test".toList hostsTwice = 2 ∧
    (Split hostsTwice '\n').count (managedLine "127.0.0.1".toList "c.test".toList) = 2 ∧
    updateHostsLines "old.test".toList "c.test".toList "127.0.0.1".toList
        (updateHostsLines "old.test".toList "c.test".toList "127.0.0.1".toList
          (Split "127.0.0.1\tlocalhost\n".toList '\n'))
      = ["127.0.0.1\tlocalhost".toList, [], "127.0.0.1\tc.test\t# Added by FastNginx".toList] ∧
    managedCount "c.test".toList
        (createHostsAppend
          (updateHostsContent "old.test".toList "c.test".toList "127.0.0.1".toList
            "127.0.0.1\tlocalhost\n".toList)
          "127.0.0.1".toList "c.test".toList) = 2 ∧
    updateHostsContent "old.test".toList "c.test".toList "127.0.0.1".toList
        (createHostsAppend "127.0.0.1\tlocalhost\n".toList "127.0.0.1".toList "c.test".toList)
      = createHostsAppend "127.0.0.1\tlocalhost\n".toList "127.0.0.1".toList "c.test".toList := by
  refine ⟨by decide, by decide, by decide, by decide, by decide, by decide, by decide,
    by decide⟩


/-! ## Lemmas on the hosts update -/

theorem infix_dropWhile_of_head (x l : Str)
    (hx : ∀ c, x.head? = some c → isSpace c = false) (h : x <:+: l) :
    x <:+: l.dropWhile isSpace := by
  induction l with
  | nil => simpa using h
  | cons a t ih =>
    by_cases ha : isSpace a = true
    · rw [List.dropWhile_cons, if_pos ha]
      rcases List.infix_cons_iff.mp h with hp | hi
      · cases x with
        | nil => exact List.nil_infix
        | cons c x =>
          have hca : c = a := by
            obtain ⟨s, hs⟩ := hp
            simp only [List.cons_append, List.cons.injEq] at hs
            exact hs.1
          have := hx c rfl
          rw [hca, ha] at this
          cases this
      · exact ih hi
    · rw [List.dropWhile_cons, if_neg ha]
      exact h

theorem infix_trimSpace (x l : Str) (hx : Trimmed x) (h : x <:+: l) : x <:+: TrimSpace l := by
  unfold TrimSpace List.rdropWhile
  rw [← List.reverse_infix, List.reverse_reverse]
  apply infix_dropWhile_of_head
  · intro c hc
    rw [List.head?_reverse] at hc
    exact hx.2 c hc
  · rw [List.reverse_infix]
    exact infix_dropWhile_of_head x l hx.1 h

/-- For an old domain without white space at its ends, the test of the update loop is
containment in the line. -/
theorem hostsLineMatches_iff (oldDomain line : Str) (h : TrimSpace oldDomain = oldDomain) :
    hostsLineMatches oldDomain line = true ↔ oldDomain <:+: line := by
  have ht := trimmed_of_trimSpace_eq oldDomain h
  unfold hostsLineMatches
  constructor
  · intro hm
    simp only [Bool.and_eq_true] at hm
    exact ((contains_iff _ _).mp hm.1).trans (trimSpace_within line)
  · intro hi
    have := (contains_iff _ _).mpr (infix_trimSpace oldDomain line ht hi)
    simp [this]

theorem replaceFirstMatch_of_match (oldDomain newLine : Str) (lines : List Str)
    (h : ∃ l ∈ lines, hostsLineMatches oldDomain l = true) :
    ∃ before line after, lines = before ++ line :: after ∧
      (∀ x ∈ before, hostsLineMatches oldDomain x = false) ∧
      hostsLineMatches oldDomain line = true ∧
      replaceFirstMatch oldDomain newLine lines = some (before ++ newLine :: after) := by
  induction lines with
  | nil => simp at h
  | cons a t ih =>
    by_cases ha : hostsLineMatches oldDomain a = true
    · exact ⟨[], a, t, rfl, by simp, ha, by simp [replaceFirstMatch, ha]⟩
    · have ht : ∃ l ∈ t, hostsLineMatches oldDomain l = true := by
        obtain ⟨l, hl, hm⟩ := h
        simp only [List.mem_cons] at hl
        rcases hl with rfl | hl
        · exact absurd hm ha
        · exact ⟨l, hl, hm⟩
      obtain ⟨before, line, after, heq, hb, hm, hr⟩ := ih ht
      refine ⟨a :: before, line, after, by simp [heq], ?_, hm, ?_⟩
      · intro x hx
        simp only [List.mem_cons] at hx
        rcases hx with rfl | hx
        · simpa using ha
        · exact hb x hx
      · simp only [replaceFirstMatch, ha, Bool.false_eq_true, if_false, hr]
        rfl

/-- Every field value `parseConfigLine` returns, read with `m[k]`, is free of white
space at its ends; so is the old domain edit passes to `updateHostsFile`. -/
theorem trimSpace_mapGet_parseConfigLine (line k : Str) :
    TrimSpace (mapGet (parseConfigLine line) k) = mapGet (parseConfigLine line) k := by
  have hc := cleanMap_parseConfigLine line
  unfold mapGet
  cases hl : mapLookup (parseConfigLine line) k with
  | none => decide
  | some v =>
    have hmem := (mapLookup_eq_some_iff _ hc.1 k v).mp hl
    exact (hc.2 (k, v) hmem).2.1

/-- For an old domain without white space at its ends and lines of which one contains
it, the update loop replaces the first such line and adds none. -/
theorem updateHostsLines_of_trimmed (oldDomain newDomain newIp : Str)
    (lines : List Str) (htrim : TrimSpace oldDomain = oldDomain)
    (hsome : ∃ l ∈ lines, oldDomain <:+: l) :
    ∃ before line after,
      lines = before ++ line :: after ∧
      (∀ x ∈ before, ¬ oldDomain <:+: x) ∧
      oldDomain <:+: line ∧
      updateHostsLines oldDomain newDomain newIp lines
        = before ++ managedLine newIp newDomain :: after ∧
      (updateHostsLines oldDomain newDomain newIp lines).length = lines.length := by
  have hm : ∃ l ∈ lines, hostsLineMatches oldDomain l = true := by
    obtain ⟨l, hl, hi⟩ := hsome
    exact ⟨l, hl, (hostsLineMatches_iff oldDomain l htrim).mpr hi⟩
  obtain ⟨before, line, after, heq, hb, hl, hr⟩ :=
    replaceFirstMatch_of_match oldDomain (managedLine newIp newDomain) lines hm
  have hres : updateHostsLines oldDomain newDomain newIp lines
      = before ++ managedLine newIp newDomain :: after := by
    unfold updateHostsLines
    rw [hr]
  refine ⟨before, line, after, heq, ?_, (hostsLineMatches_iff oldDomain line htrim).mp hl, hres, ?_⟩
  · intro x hx hi
    have := (hostsLineMatches_iff oldDomain x htrim).mpr hi
    rw [hb x hx] at this
    cases this
  · rw [hres, heq]
    simp

/-! ## C10: the hosts update touches one line -/

/-- C10: `updateHostsFile` has one caller, edit (main.go 534), which passes as old
domain the `domain` field of the record it decoded from an index line (main.go
418-419).  For every index line, every new domain and ip, and every list of hosts lines
in which at least one line contains that old domain, `updateHostsFile` produces the
input list with the first line that contains the old domain replaced by
`<newIp>\t<newDomain>\t# Added by FastNginx`: the lines before it (none of which
contains the old domain) and all the lines after it, also those that contain the old
domain, are unchanged, the list has the same length, and no line is appended. -/
theorem update_hosts_touches_one_line (indexLine newDomain newIp : Str) (lines : List Str)
    (hsome : ∃ l ∈ lines, mapGet (parseConfigLine indexLine) "domain".toList <:+: l) :
    ∃ before line after,
      lines = before ++ line :: after ∧
      (∀ x ∈ before, ¬ mapGet (parseConfigLine indexLine) "domain".toList <:+: x) ∧
      mapGet (parseConfigLine indexLine) "domain".toList <:+: line ∧
      updateHostsLines (mapGet (parseConfigLine indexLine) "domain".toList) newDomain newIp lines
        = before ++ managedLine newIp newDomain :: after ∧
      (updateHostsLines (mapGet (parseConfigLine indexLine) "domain".toList) newDomain newIp
        lines).length = lines.length :=
  updateHostsLines_of_trimmed (mapGet (parseConfigLine indexLine) "domain".toList) newDomain
    newIp lines (trimSpace_mapGet_parseConfigLine indexLine "domain".toList) hsome

/-- C10 (witness): the record of `a.test`, and three hosts lines of which the second
and the third contain `a.test`. -/
theorem update_hosts_touches_one_line_witness :
    (∃ l ∈ ["127.0.0.1 localhost".toList, "  9.9.9.9 a.test".toList, "x a.test".toList],
      mapGet (parseConfigLine lineShort) "domain".toList <:+: l) ∧
    ∃ before line after,
      ["127.0.0.1 localhost".toList, "  9.9.9.9 a.test".toList, "x a.test".toList]
        = before ++ line :: after ∧
      (∀ x ∈ before, ¬ mapGet (parseConfigLine lineShort) "domain".toList <:+: x) ∧
      mapGet (parseConfigLine lineShort) "domain".toList <:+: line ∧
      updateHostsLines (mapGet (parseConfigLine lineShort) "domain".toList) "b.test".toList
          "1.2.3.4".toList
          ["127.0.0.1 localhost".toList, "  9.9.9.9 a.test".toList, "x a.test".toList]
        = before ++ managedLine "1.2.3.4".toList "b.test".toList :: after ∧
      (updateHostsLines (mapGet (parseConfigLine lineShort) "domain".toList) "b.test".toList
          "1.2.3.4".toList
          ["127.0.0.1 localhost".toList, "  9.9.9.9 a.test".toList, "x a.test".toList]).length
        = ["127.0.0.1 localhost".toList, "  9.9.9.9 a.test".toList, "x a.test".toList].length :=
  ⟨⟨"x a.test".toList, by decide, by decide⟩,
    update_hosts_touches_one_line lineShort "b.test".toList "1.2.3.4".toList
      ["127.0.0.1 localhost".toList, "  9.9.9.9 a.test".toList, "x a.test".toList]
      ⟨"x a.test".toList, by decide, by decide⟩⟩

/-! ## C11: the symlink across create, toggle and delete -/

set_option maxRecDepth 1000000 in
/-- C11 (the code at the failing input): create accepts the domain `a.test b.test` and
links `/etc/nginx/sites-enabled/a.test`, the path named after the primary domain.
Toggle and delete compute their path from the whole domain field,
`/etc/nginx/sites-enabled/a.test b.test`, which is another path.  After create and one
toggle the record has `status=inactive` and the symlink create made is still there;
after create and delete the index is empty and the symlink is still there. -/
theorem toggle_and_delete_miss_primary_symlink :
    primaryDomain (getUserInput repliesTwoNames.domain) = some "a.test".toList ∧
    siteEnabledPath "a.test".toList = linkPrimary ∧
    siteEnabledPath "a.test b.test".toList = linkWholeField ∧
    linkPrimary ≠ linkWholeField ∧
    afterCreateTwoNames.map observeLinks
      = some (some (Node.link "/etc/nginx/sites-available/a.test".toList), none,
          some ["active".toList]) ∧
    (afterCreateThen toggleFirst).map observeLinks
      = some (some (Node.link "/etc/nginx/sites-available/a.test".toList), none,
          some ["inactive".toList]) ∧
    (afterCreateThen deleteFirst).map observeLinks
      = some (some (Node.link "/etc/nginx/sites-available/a.test".toList), none,
          some []) := by
  refine ⟨by decide, by decide, by decide, by decide, by decide, by decide, by decide⟩


/-! ## Lemmas on the totality of edit -/

/-- When the old domain has no token, `oldDomains[0]` (or already `newDomains[0]`) is
out of range, whatever the replies. -/
theorem editPlan_none_of_no_old_token (config : GoMap) (r : EditReplies)
    (h : Fields (mapGet config "domain".toList) = []) : editPlan config r = none := by
  unfold editPlan
  simp only [h]
  cases Fields (editNewDomain config r) <;> rfl

/-- The new domain of an edit has a token whenever the old domain has one. -/
theorem fields_editNewDomain_ne_nil (config : GoMap) (r : EditReplies)
    (h : Fields (mapGet config "domain".toList) ≠ []) :
    Fields (editNewDomain config r) ≠ [] := by
  unfold editNewDomain
  split
  · exact h
  · rename_i hne
    apply fields_getUserInput_ne_nil
    intro h0
    rw [h0] at hne
    exact hne rfl

/-- When the old domain has a token, the field computations of edit return. -/
theorem editPlan_isSome_of_old_token (config : GoMap) (r : EditReplies)
    (h : Fields (mapGet config "domain".toList) ≠ []) : (editPlan config r).isSome = true := by
  have hn := fields_editNewDomain_ne_nil config r h
  unfold editPlan
  cases hf : Fields (editNewDomain config r) with
  | nil => exact absurd hf hn
  | cons a t =>
    cases ho : Fields (mapGet config "domain".toList) with
    | nil => exact absurd ho h
    | cons b u => simp only [hf, ho, Option.isSome_some]

/-- Edit of a line at a valid position panics exactly when the decoded domain of the
line has no token. -/
theorem editConfiguration_eq_none_iff (env : Env) (ord : GoMap → GoMap) (r : EditReplies)
    (configs : List Str) (index : Nat) (configIndex : Str) (fs : FS) (line : Str)
    (hline : configs[index]? = some line) :
    editConfiguration env ord r configs index configIndex fs = none ↔
      Fields (mapGet (parseConfigLine line) "domain".toList) = [] := by
  unfold editConfiguration
  rw [hline]
  constructor
  · intro h
    by_contra hne
    have hs := editPlan_isSome_of_old_token (parseConfigLine line) r hne
    cases hp : editPlan (parseConfigLine line) r with
    | none => rw [hp] at hs; cases hs
    | some p => simp only [hp] at h; cases h
  · intro h
    simp only [editPlan_none_of_no_old_token _ r h]


/-! ## C12: edit on a record without a domain -/

/-- C12 (the code at the failing input): the index lines `port=3000,status=active` (no
domain field), `garbage` (no `=`) and `domain=,port=3000,status=active` (empty domain
value) all decode, to a record whose domain is the empty string.  For each of them, and
for every tuple of replies, every environment and every file system,
`editConfiguration` does not run to completion: taking the first token of the old
domain (or already of the new one, when the domain reply is empty) indexes an empty
slice, and the run panics. -/
theorem edit_panics_on_record_without_domain :
    mapGet (parseConfigLine lineNoDomain) "domain".toList = [] ∧
    mapGet (parseConfigLine lineNoEquals) "domain".toList = [] ∧
    mapGet (parseConfigLine lineEmptyDomain) "domain".toList = [] ∧
    Fields [] = [] ∧
    ∀ (env : Env) (ord : GoMap → GoMap) (r : EditReplies) (configIndex : Str) (fs : FS),
      editConfiguration env ord r [lineNoDomain] 0 configIndex fs = none ∧
      editConfiguration env ord r [lineNoEquals] 0 configIndex fs = none ∧
      editConfiguration env ord r [lineEmptyDomain] 0 configIndex fs = none := by
  refine ⟨by decide, by decide, by decide, by decide, fun env ord r configIndex fs => ?_⟩
  refine ⟨?_, ?_, ?_⟩
  · exact (editConfiguration_eq_none_iff env ord r [lineNoDomain] 0 configIndex fs
      lineNoDomain rfl).mpr (by decide)
  · exact (editConfiguration_eq_none_iff env ord r [lineNoEquals] 0 configIndex fs
      lineNoEquals rfl).mpr (by decide)
  · exact (editConfiguration_eq_none_iff env ord r [lineEmptyDomain] 0 configIndex fs
      lineEmptyDomain rfl).mpr (by decide)


/-! ## Lemmas on the blank replies of edit -/

theorem orDefaultAddr_ne_nil (v : Str) : orDefaultAddr v ≠ [] := by
  unfold orDefaultAddr
  split
  · decide
  · rename_i h
    intro h0
    rw [h0] at h
    exact h rfl

/-- The fields edit writes back, for every record and every tuple of replies: on a
blank reply the domain, the port and the host are the value the prompt shows as its
default; the ip is the reply itself, hence empty on a blank reply, and so is the ip
passed to `updateHostsFile`. -/
theorem editPlan_fields (config : GoMap) (r : EditReplies) (p : EditPlan)
    (hp : editPlan config r = some p) :
    p.oldDomain = mapGet config "domain".toList ∧
    p.oldPort = mapGet config "port".toList ∧
    p.oldHost = orDefaultAddr (mapGet config "host".toList) ∧
    p.oldIp = orDefaultAddr (mapGet config "ip".toList) ∧
    (getUserInput r.domain = [] → mapGet p.config "domain".toList = p.oldDomain) ∧
    (getUserInput r.port = [] → mapGet p.config "port".toList = p.oldPort) ∧
    (getUserInput r.host = [] → mapGet p.config "host".toList = p.oldHost) ∧
    mapGet p.config "ip".toList = getUserInput r.ip ∧
    p.newIp = getUserInput r.ip := by
  have k1 : "domain".toList ≠ "port".toList := by decide
  have k2 : "domain".toList ≠ "host".toList := by decide
  have k3 : "domain".toList ≠ "ip".toList := by decide
  have k4 : "domain".toList ≠ "path".toList := by decide
  have k5 : "port".toList ≠ "host".toList := by decide
  have k6 : "port".toList ≠ "ip".toList := by decide
  have k7 : "port".toList ≠ "path".toList := by decide
  have k8 : "host".toList ≠ "ip".toList := by decide
  have k9 : "host".toList ≠ "path".toList := by decide
  have k10 : "ip".toList ≠ "path".toList := by decide
  unfold editPlan at hp
  cases hn : Fields (editNewDomain config r) with
  | nil => simp only [hn] at hp; cases hp
  | cons a t =>
    cases ho : Fields (mapGet config "domain".toList) with
    | nil => simp only [hn, ho] at hp; cases hp
    | cons b u =>
      simp only [hn, ho, Option.some.injEq] at hp
      subst hp
      refine ⟨rfl, rfl, rfl, rfl, ?_, ?_, ?_, ?_, rfl⟩
      · intro h
        have : editNewDomain config r = mapGet config "domain".toList := by
          simp [editNewDomain, h]
        dsimp only
        split <;> simp [mapGet_mapSet, k1, k2, k3, k4, this]
      · intro h
        dsimp only
        split <;> simp [mapGet_mapSet, k5, k6, k7, h]
      · intro h
        dsimp only
        split <;> simp [mapGet_mapSet, k8, k9, h]
      · dsimp only
        split <;> simp [mapGet_mapSet, k10]

/-- On a blank ip reply the ip written back is never the default the prompt shows. -/
theorem editPlan_blank_ip_ne_default (config : GoMap) (r : EditReplies) (p : EditPlan)
    (hp : editPlan config r = some p) (hip : getUserInput r.ip = []) :
    mapGet p.config "ip".toList = [] ∧ p.newIp = [] ∧ p.oldIp ≠ [] := by
  obtain ⟨_, _, _, h4, _, _, _, h8, h9⟩ := editPlan_fields config r p hp
  refine ⟨by rw [h8, hip], by rw [h9, hip], ?_⟩
  rw [h4]
  exact orDefaultAddr_ne_nil _


/-! ## C13: blank replies of edit -/

/-- C13 (the code at the failing input): the record of `a.test` has `port=3000`,
`host=10.0.0.9` and `ip=10.0.0.5`, which the four prompts show as their defaults.  With
four blank replies edit writes back the old domain, port and host, but the ip it writes
back is the empty string, not the default `10.0.0.5` of the prompt: the index line
holds `ip=`, and the hosts line of `a.test` is replaced by a managed line with an empty
ip. -/
theorem edit_blank_ip_reply_clears_ip :
    (editPlan (parseConfigLine lineFull) blankReplies).map
        (fun p => (p.oldDomain, p.oldPort, p.oldHost, p.oldIp))
      = some ("a.test".toList, "3000".toList, "10.0.0.9".toList, "10.0.0.5".toList) ∧
    (editPlan (parseConfigLine lineFull) blankReplies).map
        (fun p => (mapGet p.config "domain".toList, mapGet p.config "port".toList,
          mapGet p.config "host".toList, mapGet p.config "ip".toList, p.newIp))
      = some ("a.test".toList, "3000".toList, "10.0.0.9".toList, [], []) ∧
    (editConfiguration okEnv id blankReplies [lineFull] 0 srvIndex fsFull).map
        (fun x => (x.1, x.2.fs hostsPath))
      = some
          ([("domain=a.test,port=3000,host=10.0.0.9,type=proxy,ip=," ++
              "path=/etc/nginx/sites-available/a.test,status=active").toList],
            some (Node.file
              "127.0.0.1\tlocalhost\n\ta.test\t# Added by FastNginx\n".toList)) := by
  refine ⟨by decide, by decide, by decide⟩


end FastNginx
